import Mathlib

/-!
Verification development for the cfstream upload engine (package `api`,
files `client.go` / `upload` path and `errors.go`).

The Go code is shallowly embedded: every pure computation becomes a Lean
function, the HTTP side effects become an explicit accumulated list of
`Request` values, the remote server and the local file system become an
explicit environment record, and the non-blocking progress-channel send
becomes a readiness schedule `Nat → Bool` (entry `i` tells whether the
consumer was ready for the `i`-th send; a `false` entry drops that update,
exactly like the `select { case ch <- u: default: }` in the source).
Machine integers (`int64` sizes and offsets) are modelled as `Nat`: all
quantities involved are byte counts and HTTP status codes, far below any
overflow boundary, and the Go code never relies on wraparound.
-/

deriving instance DecidableEq for Except

namespace CFStream

/-- Threshold above which `UploadFile` switches to the TUS path:
`const tusThreshold = 200 * 1024 * 1024` in `UploadFile`. -/
def tusThreshold : Nat := 200 * 1024 * 1024

/-- Chunk size of the TUS loop: `const chunkSize = 50 * 1024 * 1024`
in `tusUploadDirect`. -/
def chunkSize : Nat := 50 * 1024 * 1024

/-- Buffer size of the multipart copy loop:
`buffer := make([]byte, 1024*1024)` in `multipartUpload`. -/
def mpBufSize : Nat := 1024 * 1024

/-- Go struct `UploadOptions` (types.go): display name, arbitrary metadata
and the signed-URL flag. The `interface\x7b\x7d` metadata values are modelled
as strings; the claims only track whether option contents reach requests. -/
structure UploadOptions where
  Name : String
  Metadata : List (String × String)
  RequireSignedURLs : Bool
  deriving DecidableEq, Repr

/-- Go struct `DirectUploadOptions` (types.go). The `Expiry *time.Time`
field is omitted: the `UploadFile` path under verification always leaves it
nil, and no claim mentions it. -/
structure DirectUploadOptions where
  MaxDurationSeconds : Nat
  RequireSignedURLs : Bool
  deriving DecidableEq, Repr

/-- Go struct `DirectUploadResult` (types.go), minus the `Expiry` echo. -/
structure DirectUploadResult where
  UploadURL : String
  UID : String
  deriving DecidableEq, Repr

/-- Go struct `UploadProgress` (types.go). -/
structure UploadProgress where
  BytesSent : Nat
  BytesTotal : Nat
  deriving DecidableEq, Repr

/-- Go struct `Video` (types.go), restricted to the fields the upload
claims observe. -/
structure Video where
  UID : String
  Name : String
  Status : String
  deriving DecidableEq, Repr

/-- Error values of the upload engine. Each constructor corresponds to one
distinct error construction site in the Go source: `invalidInput` to
`fmt.Errorf("%w: ...", ErrInvalidInput)`, `tusInitFailed` to the non-201
session-open branch, `locationMissing` to "TUS upload location not
returned", `locationExtractFailed` to the empty-split branch, `chunkFailed`
to the non-204 PATCH branch, `multipartFailed` to the non-200/201 POST
branch, `ioError` to environment failures (network, file system), and
`wrapped` to `fmt.Errorf("<ctx>: %w", err)`. -/
inductive UploadError where
  | invalidInput (msg : String)
  | ioError (msg : String)
  | tusInitFailed (status : Nat)
  | locationMissing
  | locationExtractFailed
  | chunkFailed (status : Nat)
  | multipartFailed (status : Nat)
  | wrapped (ctx : String) (err : UploadError)
  deriving DecidableEq, Repr

/-- Analogue of Go `errors.Is` restricted to the `%w` wrapping used in this
code base: an error matches a target when it is the target or wraps it. -/
def UploadError.isMatch : UploadError → UploadError → Bool
  | e, t => e = t ||
    match e with
    | .wrapped _ inner => inner.isMatch t
    | _ => false

/-- Outbound HTTP requests of the upload engine, recording exactly the
fields the claims observe: the direct-upload creation POST (with the body
fields `maxDurationSeconds` and `requireSignedURLs`), the multipart POST
(streaming `fileSize` bytes of file content), the TUS creation POST (with
`Upload-Length` and `Upload-Metadata` headers), the TUS chunk PATCH (with
`Upload-Offset` and `Content-Length` headers), and the video-details GET. -/
inductive Request where
  | createDirectUpload (maxDurationSeconds : Nat) (requireSignedURLs : Bool)
  | multipartPost (uploadURL : String) (fileSize : Nat)
  | tusCreate (tusURL : String) (uploadLength : Nat) (uploadMetadata : String)
  | tusPatch (location : String) (uploadOffset : Nat) (contentLength : Nat)
  | getVideo (videoID : String)
  deriving DecidableEq, Repr

/-- Recognizer for TUS chunk PATCH requests. -/
def Request.isTusPatch : Request → Bool
  | .tusPatch _ _ _ => true
  | _ => false

/-- Recognizer for TUS session-open requests. -/
def Request.isTusCreate : Request → Bool
  | .tusCreate _ _ _ => true
  | _ => false

/-- Recognizer for direct-upload-URL creation requests. -/
def Request.isCreateDirectUpload : Request → Bool
  | .createDirectUpload _ _ => true
  | _ => false

/-- Recognizer for multipart POST requests. -/
def Request.isMultipartPost : Request → Bool
  | .multipartPost _ _ => true
  | _ => false

/-- The `Upload-Offset` header of a TUS PATCH (`0` for other requests). -/
def Request.patchOffset : Request → Nat
  | .tusPatch _ o _ => o
  | _ => 0

/-- The `Content-Length` header of a TUS PATCH (`0` for other requests). -/
def Request.patchLen : Request → Nat
  | .tusPatch _ _ n => n
  | _ => 0

/-- Standard base64 alphabet (RFC 4648), as used by Go
`base64.StdEncoding`. -/
def base64Chars : List Char :=
  "ABCDEFGHIJKLMNOPQRSTUVWXYZabcdefghijklmnopqrstuvwxyz0123456789+/".toList

/-- Character of the base64 alphabet at a 6-bit index. -/
def b64Char (n : Nat) : Char := base64Chars.getD n 'A'

/-- Base64 encoding of a byte list, with `=` padding, following Go
`base64.StdEncoding.EncodeToString`. -/
def base64EncodeList : List Nat → String
  | [] => ""
  | [a] =>
      String.mk [b64Char (a / 4), b64Char (a % 4 * 16)] ++ "=="
  | [a, b] =>
      String.mk [b64Char (a / 4), b64Char (a % 4 * 16 + b / 16),
        b64Char (b % 16 * 4)] ++ "="
  | a :: b :: c :: rest =>
      String.mk [b64Char (a / 4), b64Char (a % 4 * 16 + b / 16),
        b64Char (b % 16 * 4 + c / 64), b64Char (c % 64)] ++
        base64EncodeList rest

/-- Base64 encoding of the UTF-8 bytes of a string, as in
`base64.StdEncoding.EncodeToString([]byte(opts.Name))`. -/
def base64Encode (s : String) : String :=
  base64EncodeList (s.toUTF8.toList.map (·.toNat))

/-- The `Upload-Metadata` header value built at the top of
`tusUploadDirect`: the single part `name <base64(name)>` when a display
name is set, empty otherwise (the Go code joins the parts with commas, and
at most one part is ever appended). -/
def uploadMetadataOf (opts : UploadOptions) : String :=
  if opts.Name ≠ "" then "name " ++ base64Encode opts.Name else ""

/-- Splitting on the slash character, following Go
`strings.Split(location, "/")`: accumulates the current segment and starts
a new one at each separator. -/
def splitSlashAux : List Char → List Char → List String
  | [], acc => [String.mk acc.reverse]
  | c :: rest, acc =>
      if c = '/' then String.mk acc.reverse :: splitSlashAux rest []
      else splitSlashAux rest (c :: acc)

/-- Go `strings.Split(s, "/")`. -/
def splitSlash (s : String) : List String := splitSlashAux s.toList []

/-- Trailing path segment of a URL:
`locationParts[len(locationParts)-1]` in the Go source. -/
def trailingSegment (s : String) : String := (splitSlash s).getLast?.getD ""

/-- Server-side behaviour visible to `tusUploadDirect`: the status of the
session-open POST, the `Location` header it carries, and the status of each
successive chunk PATCH. -/
structure TusEnv where
  createStatus : Nat
  location : String
  chunkStatus : Nat → Nat

/-- Session-open phase of `tusUploadDirect` (client.go): build the
`Upload-Metadata` header, POST to the TUS endpoint with the file length,
require status 201, read the `Location` header, require it non-empty, and
take the trailing path segment of the location as the video ID. Returns the
issued request together with either the `(location, videoID)` pair or the
error of the corresponding Go early return. -/
def tusOpenSession (tusURL : String) (fileSize : Nat) (opts : UploadOptions)
    (env : TusEnv) : List Request × Except UploadError (String × String) :=
  let req := Request.tusCreate tusURL fileSize (uploadMetadataOf opts)
  if env.createStatus ≠ 201 then
    ([req], .error (.tusInitFailed env.createStatus))
  else if env.location = "" then
    ([req], .error .locationMissing)
  else
    match (splitSlash env.location).getLast? with
    | none => ([req], .error .locationExtractFailed)
    | some vid => ([req], .ok (env.location, vid))

/-- Chunk loop of `tusUploadDirect`: while bytes remain, read up to
`chunkSize` bytes, PATCH them to the session location with the cumulative
`Upload-Offset`, stop with `chunkFailed` on any status other than 204,
otherwise advance the offset and emit one progress update through the
non-blocking channel send (`sched i` tells whether the `i`-th send is
delivered or dropped). Returns the issued requests, the generated updates,
the delivered updates, the final cumulative offset and the verdict. -/
def tusChunkLoop (location : String) (fileSize : Nat) (chunkStatus : Nat → Nat)
    (sched : Nat → Bool) (i offset remaining : Nat) :
    List Request × List UploadProgress × List UploadProgress × Nat ×
      Except UploadError Unit :=
  if h : 0 < remaining then
    let n := min chunkSize remaining
    let req := Request.tusPatch location offset n
    if chunkStatus i = 204 then
      let rest :=
        tusChunkLoop location fileSize chunkStatus sched (i + 1) (offset + n)
          (remaining - n)
      let upd : UploadProgress := ⟨offset + n, fileSize⟩
      (req :: rest.1, upd :: rest.2.1,
        (if sched i then upd :: rest.2.2.1 else rest.2.2.1),
        rest.2.2.2.1, rest.2.2.2.2)
    else
      ([req], [], [], offset, .error (.chunkFailed (chunkStatus i)))
  else
    ([], [], [], offset, .ok ())
termination_by remaining
decreasing_by simp only [chunkSize] at *; omega

/-- Outcome record of one uploader run: the outbound requests in order, the
progress updates generated, the subsequence of them actually delivered to
the consumer, and the returned value or error. -/
structure RunResult (α : Type) where
  requests : List Request
  sends : List UploadProgress
  delivered : List UploadProgress
  result : Except UploadError α
  deriving Repr

/-- Go function `tusUploadDirect` (client.go): open the session, then run
the chunk loop against the session location; on success return the video ID
extracted from the `Location` header. -/
def tusUploadDirect (tusURL : String) (fileSize : Nat) (opts : UploadOptions)
    (env : TusEnv) (sched : Nat → Bool) : RunResult String :=
  match tusOpenSession tusURL fileSize opts env with
  | (reqs, .error e) => ⟨reqs, [], [], .error e⟩
  | (reqs, .ok (loc, vid)) =>
      let rest := tusChunkLoop loc fileSize env.chunkStatus sched 0 0 fileSize
      ⟨reqs ++ rest.1, rest.2.1, rest.2.2.1,
        rest.2.2.2.2.map fun _ => vid⟩

/-- Copy loop of the goroutine inside `multipartUpload`: read up to
`mpBufSize` bytes at a time into the multipart body, accumulate `written`,
and after each buffer emit one progress update through the non-blocking
channel send. Returns the generated and the delivered updates. -/
def mpWriteLoop (fileSize : Nat) (sched : Nat → Bool)
    (i written remaining : Nat) : List UploadProgress × List UploadProgress :=
  if h : 0 < remaining then
    let n := min mpBufSize remaining
    let rest := mpWriteLoop fileSize sched (i + 1) (written + n)
      (remaining - n)
    let upd : UploadProgress := ⟨written + n, fileSize⟩
    (upd :: rest.1, if sched i then upd :: rest.2 else rest.2)
  else ([], [])
termination_by remaining
decreasing_by simp only [mpBufSize] at *; omega

/-- Go function `multipartUpload` (client.go): stream the file as one
multipart POST to the pre-obtained upload URL, emitting per-buffer progress
updates; the request succeeds on status 200 or 201 and fails with the
status otherwise. The `opts` parameter mirrors the Go signature: the Go
body never reads it. -/
def multipartUpload (uploadURL : String) (fileSize : Nat)
    (_opts : UploadOptions) (status : Nat) (sched : Nat → Bool) :
    RunResult Unit :=
  let sd := mpWriteLoop fileSize sched 0 0 fileSize
  let req := Request.multipartPost uploadURL fileSize
  if status = 200 ∨ status = 201 then ⟨[req], sd.1, sd.2, .ok ()⟩
  else ⟨[req], sd.1, sd.2, .error (.multipartFailed status)⟩

/-- Go method `CreateDirectUploadURL`, at the granularity the upload claims
need: it issues one POST whose body carries `maxDurationSeconds` and
`requireSignedURLs` taken from its `DirectUploadOptions` argument, and the
environment supplies either the parsed `(uploadURL, uid)` result or the
error of the HTTP/JSON plumbing (which no claim inspects further). -/
def createDirectUploadURL (opts : DirectUploadOptions)
    (resp : Except UploadError DirectUploadResult) :
    List Request × Except UploadError DirectUploadResult :=
  ([Request.createDirectUpload opts.MaxDurationSeconds opts.RequireSignedURLs],
    resp)

/-- Go method `GetVideo`, at the granularity the upload claims need: an
empty video ID is rejected with `ErrInvalidInput` before any request;
otherwise one GET is issued and the environment supplies the parsed video
or the error of the HTTP plumbing. -/
def getVideoCall (videoID : String)
    (lookup : String → Except UploadError Video) :
    List Request × Except UploadError Video :=
  if videoID = "" then
    ([], .error (.invalidInput "video ID cannot be empty"))
  else ([Request.getVideo videoID], lookup videoID)

/-- Environment of one `UploadFile` call: the local file system
(`openFile` models `os.Open` followed by `Stat`, yielding the file size or
the open error) and the remote service behaviour for each possible request
kind. -/
structure UploadEnv where
  openFile : String → Except UploadError Nat
  directResp : Except UploadError DirectUploadResult
  mpStatus : Nat
  tus : TusEnv
  videoLookup : String → Except UploadError Video

/-- Default (zero-value) upload options, as produced by
`opts = &UploadOptions\x7b\x7d` when the caller passes nil. -/
def defaultUploadOptions : UploadOptions := ⟨"", [], false⟩

/-- TUS endpoint URL built in the large-file branch of `UploadFile`:
`fmt.Sprintf(".../accounts/%s/stream", c.accountID)`. -/
def tusURLFor (accountID : String) : String :=
  "https://api.cloudflare.com/client/v4/accounts/" ++ accountID ++ "/stream"

/-- Large-file branch of `UploadFile` (client.go): run `tusUploadDirect`
against the account TUS endpoint; on failure wrap the error with the
`"TUS upload failed"` context of the corresponding `fmt.Errorf`; on success
fetch the video details with `GetVideo` (wrapping its failure with
`"failed to get video details"`) and return them. -/
def uploadTusStage (accountID : String) (fileSize : Nat)
    (opts : UploadOptions) (env : UploadEnv) (sched : Nat → Bool) :
    RunResult Video :=
  let r := tusUploadDirect (tusURLFor accountID) fileSize opts env.tus sched
  match r.result with
  | .error e =>
      ⟨r.requests, r.sends, r.delivered,
        .error (.wrapped "TUS upload failed" e)⟩
  | .ok videoID =>
      let g := getVideoCall videoID env.videoLookup
      match g.2 with
      | .error e =>
          ⟨r.requests ++ g.1, r.sends, r.delivered,
            .error (.wrapped "failed to get video details" e)⟩
      | .ok v => ⟨r.requests ++ g.1, r.sends, r.delivered, .ok v⟩

/-- Small-file branch of `UploadFile` (client.go): create a direct upload
URL with the hardcoded options `MaxDurationSeconds = 21600` and
`RequireSignedURLs = true` (wrapping failure with
`"failed to create direct upload URL"`), run `multipartUpload` against the
returned URL (wrapping failure with `"upload failed"`), and on success
fetch the video details with `GetVideo` (wrapping its failure with
`"failed to get video details"`). -/
def uploadMpStage (fileSize : Nat) (opts : UploadOptions) (env : UploadEnv)
    (sched : Nat → Bool) : RunResult Video :=
  let d := createDirectUploadURL ⟨21600, true⟩ env.directResp
  match d.2 with
  | .error e =>
      ⟨d.1, [], [],
        .error (.wrapped "failed to create direct upload URL" e)⟩
  | .ok direct =>
      let m := multipartUpload direct.UploadURL fileSize opts
        env.mpStatus sched
      match m.result with
      | .error e =>
          ⟨d.1 ++ m.requests, m.sends, m.delivered,
            .error (.wrapped "upload failed" e)⟩
      | .ok _ =>
          let g := getVideoCall direct.UID env.videoLookup
          match g.2 with
          | .error e =>
              ⟨d.1 ++ m.requests ++ g.1, m.sends, m.delivered,
                .error (.wrapped "failed to get video details" e)⟩
          | .ok v => ⟨d.1 ++ m.requests ++ g.1, m.sends, m.delivered, .ok v⟩

/-- Go method `UploadFile` (client.go): reject an empty path with
`ErrInvalidInput`; replace nil options by the zero value; open the file and
read its size; if the size reaches `tusThreshold` run the TUS branch,
otherwise the direct-upload multipart branch. -/
def UploadFile (accountID : String) (filePath : String)
    (optsIn : Option UploadOptions) (env : UploadEnv) (sched : Nat → Bool) :
    RunResult Video :=
  if filePath = "" then
    ⟨[], [], [], .error (.invalidInput "file path cannot be empty")⟩
  else
    let opts := optsIn.getD defaultUploadOptions
    match env.openFile filePath with
    | .error e => ⟨[], [], [], .error (.wrapped "failed to open file" e)⟩
    | .ok fileSize =>
      if fileSize ≥ tusThreshold then
        uploadTusStage accountID fileSize opts env sched
      else
        uploadMpStage fileSize opts env sched

/-- Number of chunks the TUS loop sends for a file of `n` bytes split into
pieces of `c` bytes: the ceiling of `n / c`. -/
def chunkCount (n c : Nat) : Nat := (n + c - 1) / c

/-- The subsequence of a send list selected by a readiness schedule,
starting at send index `i`: exactly the updates whose send the consumer was
ready for. -/
def keepScheduled (sched : Nat → Bool) : Nat → List UploadProgress →
    List UploadProgress
  | _, [] => []
  | i, u :: rest =>
      if sched i then u :: keepScheduled sched (i + 1) rest
      else keepScheduled sched (i + 1) rest

/-! Basic facts about the embedded helpers. -/

theorem chunkSize_pos : 0 < chunkSize := by norm_num [chunkSize]

theorem mpBufSize_pos : 0 < mpBufSize := by norm_num [mpBufSize]

theorem splitSlashAux_ne_nil (l acc : List Char) : splitSlashAux l acc ≠ [] := by
  induction l generalizing acc with
  | nil => simp [splitSlashAux]
  | cons c rest ih =>
      rw [splitSlashAux]
      by_cases h : c = '/'
      · simp [h]
      · simpa [h] using ih (c :: acc)

theorem splitSlash_ne_nil (s : String) : splitSlash s ≠ [] :=
  splitSlashAux_ne_nil s.toList []

theorem chunkCount_zero {c : Nat} (hc : 0 < c) : chunkCount 0 c = 0 := by
  unfold chunkCount
  exact Nat.div_eq_of_lt (by omega)

theorem chunkCount_eq_one {r c : Nat} (hc : 0 < c) (hr : 0 < r) (hle : r ≤ c) :
    chunkCount r c = 1 := by
  unfold chunkCount
  have h1 : r + c - 1 = (r - 1) + c := by omega
  rw [h1, Nat.add_div_right _ hc, Nat.div_eq_of_lt (by omega)]

theorem chunkCount_succ {r c : Nat} (hc : 0 < c) (hlt : c < r) :
    chunkCount r c = chunkCount (r - c) c + 1 := by
  unfold chunkCount
  have h1 : r + c - 1 = (r - 1) + c := by omega
  have h2 : r - c + c - 1 = (r - c - 1) + c := by omega
  rw [h1, h2, Nat.add_div_right _ hc, Nat.add_div_right _ hc,
    Nat.div_eq_sub_div hc (show c ≤ r - 1 by omega)]
  have h3 : r - 1 - c = r - c - 1 := by omega
  rw [h3]

theorem chunkCount_pos {r c : Nat} (hc : 0 < c) (hr : 0 < r) :
    0 < chunkCount r c := by
  unfold chunkCount
  exact Nat.div_pos (by omega) hc

theorem chunkCount_pos_rev {r c : Nat} (hc : 0 < c)
    (h : 0 < chunkCount r c) : 0 < r := by
  by_contra hr
  have : r = 0 := by omega
  rw [this, chunkCount_zero hc] at h
  omega

theorem keepScheduled_nil (sched : Nat → Bool) (i : Nat) :
    keepScheduled sched i [] = [] := rfl

theorem keepScheduled_cons (sched : Nat → Bool) (i : Nat)
    (u : UploadProgress) (l : List UploadProgress) :
    keepScheduled sched i (u :: l) =
      if sched i then u :: keepScheduled sched (i + 1) l
      else keepScheduled sched (i + 1) l := rfl

/-! Facts about the TUS chunk loop. -/

theorem tusChunkLoop_zero (loc : String) (N : Nat) (st : Nat → Nat)
    (sched : Nat → Bool) (i o : Nat) :
    tusChunkLoop loc N st sched i o 0 = ([], [], [], o, .ok ()) := by
  rw [tusChunkLoop]
  simp

theorem tusChunkLoop_ok (loc : String) (N : Nat) (st : Nat → Nat)
    (sched : Nat → Bool) : ∀ r i o,
    (∀ k, k < chunkCount r chunkSize → st (i + k) = 204) →
    (tusChunkLoop loc N st sched i o r).2.2.2.1 = o + r ∧
      (tusChunkLoop loc N st sched i o r).2.2.2.2 = .ok () := by
  intro r
  induction r using Nat.strong_induction_on with
  | _ r ih =>
    intro i o h204
    by_cases hr : 0 < r
    · have hK : 0 < chunkCount r chunkSize :=
        chunkCount_pos chunkSize_pos hr
      have h0 : st i = 204 := by simpa using h204 0 hK
      have hC := chunkSize_pos
      have h204' : ∀ k, k < chunkCount (r - min chunkSize r) chunkSize →
          st (i + 1 + k) = 204 := by
        intro k hk
        rcases le_or_lt r chunkSize with hle | hlt
        · rw [Nat.min_eq_right hle, Nat.sub_self,
            chunkCount_zero chunkSize_pos] at hk
          omega
        · rw [Nat.min_eq_left (le_of_lt hlt)] at hk
          rw [chunkCount_succ chunkSize_pos hlt] at h204
          have := h204 (k + 1) (by omega)
          rwa [show i + (k + 1) = i + 1 + k by omega] at this
      have hrec := ih (r - min chunkSize r) (by omega) (i + 1)
        (o + min chunkSize r) h204'
      rw [tusChunkLoop]
      simp only [dif_pos hr, h0, if_pos]
      refine ⟨?_, hrec.2⟩
      rw [hrec.1]
      omega
    · have : r = 0 := by omega
      subst this
      rw [tusChunkLoop_zero]
      simp

theorem chunkCount_sub_min {r : Nat} (hr : 0 < r) :
    chunkCount (r - min chunkSize r) chunkSize + 1 = chunkCount r chunkSize := by
  rcases le_or_lt r chunkSize with hle | hlt
  · rw [Nat.min_eq_right hle, Nat.sub_self, chunkCount_zero chunkSize_pos,
      chunkCount_eq_one chunkSize_pos hr hle]
  · rw [Nat.min_eq_left hlt.le, chunkCount_succ chunkSize_pos hlt]

theorem h204_shift {st : Nat → Nat} {r i : Nat}
    (h204 : ∀ k, k < chunkCount r chunkSize → st (i + k) = 204) :
    ∀ k, k < chunkCount (r - min chunkSize r) chunkSize →
      st (i + 1 + k) = 204 := by
  intro k hk
  rcases le_or_lt r chunkSize with hle | hlt
  · rw [Nat.min_eq_right hle, Nat.sub_self,
      chunkCount_zero chunkSize_pos] at hk
    omega
  · rw [Nat.min_eq_left hlt.le] at hk
    rw [chunkCount_succ chunkSize_pos hlt] at h204
    have := h204 (k + 1) (by omega)
    rwa [show i + (k + 1) = i + 1 + k by omega] at this

theorem tusChunkLoop_len (loc : String) (N : Nat) (st : Nat → Nat)
    (sched : Nat → Bool) : ∀ r i o,
    (∀ k, k < chunkCount r chunkSize → st (i + k) = 204) →
    (tusChunkLoop loc N st sched i o r).1.length = chunkCount r chunkSize ∧
      (tusChunkLoop loc N st sched i o r).2.1.length =
        chunkCount r chunkSize := by
  intro r
  induction r using Nat.strong_induction_on with
  | _ r ih =>
    intro i o h204
    by_cases hr : 0 < r
    · have hK : 0 < chunkCount r chunkSize :=
        chunkCount_pos chunkSize_pos hr
      have h0 : st i = 204 := by simpa using h204 0 hK
      have hC := chunkSize_pos
      have hrec := ih (r - min chunkSize r) (by omega) (i + 1)
        (o + min chunkSize r) (h204_shift h204)
      rw [tusChunkLoop]
      simp only [dif_pos hr, h0, if_pos, List.length_cons]
      rw [hrec.1, hrec.2, chunkCount_sub_min hr]
      simp
    · have : r = 0 := by omega
      subst this
      rw [tusChunkLoop_zero]
      simp [chunkCount_zero chunkSize_pos]

theorem tusChunkLoop_get_req (loc : String) (N : Nat) (st : Nat → Nat)
    (sched : Nat → Bool) : ∀ r i o,
    (∀ k, k < chunkCount r chunkSize → st (i + k) = 204) →
    ∀ k, k < chunkCount r chunkSize →
    (tusChunkLoop loc N st sched i o r).1.get? k =
      some (Request.tusPatch loc (o + k * chunkSize)
        (min chunkSize (r - k * chunkSize))) := by
  intro r
  induction r using Nat.strong_induction_on with
  | _ r ih =>
    intro i o h204 k hk
    have hr : 0 < r := chunkCount_pos_rev chunkSize_pos (by omega)
    have hKpos : 0 < chunkCount r chunkSize := by omega
    have h0 : st i = 204 := by simpa using h204 0 hKpos
    have hC := chunkSize_pos
    rw [tusChunkLoop]
    simp only [dif_pos hr, h0, if_pos]
    match k with
    | 0 => simp
    | k + 1 =>
      have hK2 : 2 ≤ chunkCount r chunkSize := by omega
      have hlt : chunkSize < r := by
        by_contra hle
        rw [chunkCount_eq_one chunkSize_pos hr (by omega)] at hK2
        omega
      have hn : min chunkSize r = chunkSize := Nat.min_eq_left hlt.le
      have hk' : k < chunkCount (r - min chunkSize r) chunkSize := by
        have := chunkCount_sub_min hr
        omega
      have hrec := ih (r - min chunkSize r) (by omega) (i + 1)
        (o + min chunkSize r) (h204_shift h204) k hk'
      simp only [List.get?_cons_succ]
      rw [hrec, hn]
      simp only [Option.some.injEq, Request.tusPatch.injEq,
        eq_self_iff_true, true_and]
      simp only [chunkSize] at hlt ⊢
      omega

theorem tusChunkLoop_get_send (loc : String) (N : Nat) (st : Nat → Nat)
    (sched : Nat → Bool) : ∀ r i o,
    (∀ k, k < chunkCount r chunkSize → st (i + k) = 204) →
    ∀ k, k < chunkCount r chunkSize →
    (tusChunkLoop loc N st sched i o r).2.1.get? k =
      some ⟨o + min ((k + 1) * chunkSize) r, N⟩ := by
  intro r
  induction r using Nat.strong_induction_on with
  | _ r ih =>
    intro i o h204 k hk
    have hr : 0 < r := chunkCount_pos_rev chunkSize_pos (by omega)
    have hKpos : 0 < chunkCount r chunkSize := by omega
    have h0 : st i = 204 := by simpa using h204 0 hKpos
    have hC := chunkSize_pos
    rw [tusChunkLoop]
    simp only [dif_pos hr, h0, if_pos]
    match k with
    | 0 =>
      simp only [List.get?_cons_zero, Option.some.injEq,
        UploadProgress.mk.injEq, chunkSize]
    | k + 1 =>
      have hK2 : 2 ≤ chunkCount r chunkSize := by omega
      have hlt : chunkSize < r := by
        by_contra hle
        rw [chunkCount_eq_one chunkSize_pos hr (by omega)] at hK2
        omega
      have hn : min chunkSize r = chunkSize := Nat.min_eq_left hlt.le
      have hk' : k < chunkCount (r - min chunkSize r) chunkSize := by
        have := chunkCount_sub_min hr
        omega
      have hrec := ih (r - min chunkSize r) (by omega) (i + 1)
        (o + min chunkSize r) (h204_shift h204) k hk'
      simp only [List.get?_cons_succ]
      rw [hrec, hn]
      simp only [Option.some.injEq, UploadProgress.mk.injEq,
        eq_self_iff_true, and_true]
      simp only [chunkSize] at hlt ⊢
      omega

theorem tusChunkLoop_sched_irrelevant (loc : String) (N : Nat)
    (st : Nat → Nat) (sched₁ sched₂ : Nat → Bool) : ∀ r i o,
    (tusChunkLoop loc N st sched₁ i o r).1 =
        (tusChunkLoop loc N st sched₂ i o r).1 ∧
      (tusChunkLoop loc N st sched₁ i o r).2.1 =
        (tusChunkLoop loc N st sched₂ i o r).2.1 ∧
      (tusChunkLoop loc N st sched₁ i o r).2.2.2 =
        (tusChunkLoop loc N st sched₂ i o r).2.2.2 := by
  intro r
  induction r using Nat.strong_induction_on with
  | _ r ih =>
    intro i o
    by_cases hr : 0 < r
    · have hC := chunkSize_pos
      have hrec := ih (r - min chunkSize r) (by omega) (i + 1)
        (o + min chunkSize r)
      by_cases h0 : st i = 204
      · rw [tusChunkLoop, tusChunkLoop]
        simp only [dif_pos hr, h0, if_pos]
        exact ⟨by rw [hrec.1], by rw [hrec.2.1], by rw [hrec.2.2]⟩
      · rw [tusChunkLoop, tusChunkLoop]
        simp [dif_pos hr, h0]
    · have : r = 0 := by omega
      subst this
      rw [tusChunkLoop_zero, tusChunkLoop_zero]
      simp

theorem tusChunkLoop_delivered (loc : String) (N : Nat) (st : Nat → Nat)
    (sched : Nat → Bool) : ∀ r i o,
    (tusChunkLoop loc N st sched i o r).2.2.1 =
      keepScheduled sched i (tusChunkLoop loc N st sched i o r).2.1 := by
  intro r
  induction r using Nat.strong_induction_on with
  | _ r ih =>
    intro i o
    by_cases hr : 0 < r
    · have hC := chunkSize_pos
      have hrec := ih (r - min chunkSize r) (by omega) (i + 1)
        (o + min chunkSize r)
      by_cases h0 : st i = 204
      · rw [tusChunkLoop]
        simp only [dif_pos hr, h0, if_pos]
        rw [keepScheduled_cons, hrec]
      · rw [tusChunkLoop]
        simp [dif_pos hr, h0, keepScheduled_nil]
    · have : r = 0 := by omega
      subst this
      rw [tusChunkLoop_zero]
      simp [keepScheduled_nil]

theorem tusChunkLoop_req_patch (loc : String) (N : Nat) (st : Nat → Nat)
    (sched : Nat → Bool) : ∀ r i o,
    ∀ q ∈ (tusChunkLoop loc N st sched i o r).1, q.isTusPatch = true := by
  intro r
  induction r using Nat.strong_induction_on with
  | _ r ih =>
    intro i o q hq
    by_cases hr : 0 < r
    · have hC := chunkSize_pos
      by_cases h0 : st i = 204
      · rw [tusChunkLoop] at hq
        simp only [dif_pos hr, h0, if_pos, List.mem_cons] at hq
        rcases hq with hq | hq
        · subst hq; rfl
        · exact ih (r - min chunkSize r) (by omega) (i + 1)
            (o + min chunkSize r) q hq
      · rw [tusChunkLoop] at hq
        simp only [dif_pos hr, h0, if_neg, if_false, List.mem_singleton] at hq
        subst hq; rfl
    · have : r = 0 := by omega
      subst this
      rw [tusChunkLoop_zero] at hq
      simp at hq

theorem tusChunkLoop_send_bounds (loc : String) (N : Nat) (st : Nat → Nat)
    (sched : Nat → Bool) : ∀ r i o,
    ∀ u ∈ (tusChunkLoop loc N st sched i o r).2.1,
      o < u.BytesSent ∧ u.BytesTotal = N := by
  intro r
  induction r using Nat.strong_induction_on with
  | _ r ih =>
    intro i o u hu
    by_cases hr : 0 < r
    · have hC := chunkSize_pos
      by_cases h0 : st i = 204
      · rw [tusChunkLoop] at hu
        simp only [dif_pos hr, h0, if_pos, List.mem_cons] at hu
        rcases hu with hu | hu
        · subst hu
          constructor
          · simp only []
            omega
          · rfl
        · have := ih (r - min chunkSize r) (by omega) (i + 1)
            (o + min chunkSize r) u hu
          omega
      · rw [tusChunkLoop] at hu
        simp [dif_pos hr, h0] at hu
    · have : r = 0 := by omega
      subst this
      rw [tusChunkLoop_zero] at hu
      simp at hu

theorem tusChunkLoop_send_chain (loc : String) (N : Nat) (st : Nat → Nat)
    (sched : Nat → Bool) : ∀ r i o,
    List.Chain' (fun a b => a.BytesSent ≤ b.BytesSent)
      (tusChunkLoop loc N st sched i o r).2.1 := by
  intro r
  induction r using Nat.strong_induction_on with
  | _ r ih =>
    intro i o
    by_cases hr : 0 < r
    · have hC := chunkSize_pos
      by_cases h0 : st i = 204
      · rw [tusChunkLoop]
        simp only [dif_pos hr, h0, if_pos]
        rw [List.chain'_cons']
        constructor
        · intro y hy
          have hmem : y ∈ (tusChunkLoop loc N st sched (i + 1)
              (o + min chunkSize r) (r - min chunkSize r)).2.1 :=
            List.mem_of_mem_head? hy
          have := tusChunkLoop_send_bounds loc N st sched _ _ _ y hmem
          simp only []
          omega
        · exact ih (r - min chunkSize r) (by omega) (i + 1)
            (o + min chunkSize r)
      · rw [tusChunkLoop]
        simp [dif_pos hr, h0]
    · have : r = 0 := by omega
      subst this
      rw [tusChunkLoop_zero]
      simp

theorem tusChunkLoop_last_send (loc : String) (N : Nat) (st : Nat → Nat)
    (sched : Nat → Bool) : ∀ r i o,
    (tusChunkLoop loc N st sched i o r).2.2.2.2 = .ok () →
    ((tusChunkLoop loc N st sched i o r).2.1 = [] ∧ r = 0) ∨
      (tusChunkLoop loc N st sched i o r).2.1.getLast? =
        some ⟨o + r, N⟩ := by
  intro r
  induction r using Nat.strong_induction_on with
  | _ r ih =>
    intro i o hok
    by_cases hr : 0 < r
    · have hC := chunkSize_pos
      by_cases h0 : st i = 204
      · rw [tusChunkLoop] at hok ⊢
        simp only [dif_pos hr, h0, if_pos] at hok ⊢
        have hrec := ih (r - min chunkSize r) (by omega) (i + 1)
          (o + min chunkSize r) hok
        right
        rcases hrec with ⟨hnil, hzero⟩ | hlast
        · rw [hnil]
          simp only [List.getLast?_singleton, Option.some.injEq,
            UploadProgress.mk.injEq, and_true]
          omega
        · rcases hsends : (tusChunkLoop loc N st sched (i + 1)
              (o + min chunkSize r) (r - min chunkSize r)).2.1 with _ | ⟨x, xs⟩
          · rw [hsends] at hlast
            simp at hlast
          · rw [hsends] at hlast
            rw [List.getLast?_cons_cons, hlast]
            simp only [Option.some.injEq, UploadProgress.mk.injEq, and_true]
            omega
      · rw [tusChunkLoop] at hok
        simp [dif_pos hr, h0] at hok
    · have : r = 0 := by omega
      subst this
      rw [tusChunkLoop_zero]
      simp

theorem tusChunkLoop_fail (loc : String) (N : Nat) (st : Nat → Nat)
    (sched : Nat → Bool) : ∀ r i o j,
    j < chunkCount r chunkSize →
    st (i + j) ≠ 204 →
    (∀ t, t < j → st (i + t) = 204) →
    (tusChunkLoop loc N st sched i o r).1.length = j + 1 ∧
      (∀ k, k ≤ j → (tusChunkLoop loc N st sched i o r).1.get? k =
        some (Request.tusPatch loc (o + k * chunkSize)
          (min chunkSize (r - k * chunkSize)))) ∧
      (tusChunkLoop loc N st sched i o r).2.1.length = j ∧
      (tusChunkLoop loc N st sched i o r).2.2.2.1 = o + j * chunkSize ∧
      (tusChunkLoop loc N st sched i o r).2.2.2.2 =
        .error (.chunkFailed (st (i + j))) := by
  intro r
  induction r using Nat.strong_induction_on with
  | _ r ih =>
    intro i o j hj hfail hbefore
    have hr : 0 < r := chunkCount_pos_rev chunkSize_pos (by omega)
    have hC := chunkSize_pos
    match j with
    | 0 =>
      have h0 : st i ≠ 204 := by simpa using hfail
      rw [tusChunkLoop]
      simp only [dif_pos hr, h0, if_neg, if_false]
      refine ⟨rfl, ?_, rfl, by omega, by simp⟩
      intro k hk
      have : k = 0 := by omega
      subst this
      simp
    | j + 1 =>
      have h0 : st i = 204 := by simpa using hbefore 0 (by omega)
      have hK2 : 2 ≤ chunkCount r chunkSize := by omega
      have hlt : chunkSize < r := by
        by_contra hle
        rw [chunkCount_eq_one chunkSize_pos hr (by omega)] at hK2
        omega
      have hn : min chunkSize r = chunkSize := Nat.min_eq_left hlt.le
      have hj' : j < chunkCount (r - min chunkSize r) chunkSize := by
        have := chunkCount_sub_min hr
        omega
      have hfail' : st (i + 1 + j) ≠ 204 := by
        rwa [show i + 1 + j = i + (j + 1) by omega]
      have hbefore' : ∀ t, t < j → st (i + 1 + t) = 204 := by
        intro t ht
        have := hbefore (t + 1) (by omega)
        rwa [show i + (t + 1) = i + 1 + t by omega] at this
      have hrec := ih (r - min chunkSize r) (by omega) (i + 1)
        (o + min chunkSize r) j hj' hfail' hbefore'
      rw [tusChunkLoop]
      simp only [dif_pos hr, h0, if_pos, List.length_cons]
      refine ⟨by rw [hrec.1], ?_, by rw [hrec.2.2.1], ?_, ?_⟩
      · intro k hk
        match k with
        | 0 => simp
        | k + 1 =>
          have := hrec.2.1 k (by omega)
          simp only [List.get?_cons_succ]
          rw [this, hn]
          simp only [Option.some.injEq, Request.tusPatch.injEq,
            eq_self_iff_true, true_and]
          simp only [chunkSize] at hlt ⊢
          omega
      · rw [hrec.2.2.2.1, hn]
        simp only [chunkSize]
        omega
      · rw [hrec.2.2.2.2]
        rw [show i + 1 + j = i + (j + 1) by omega]

/-! Facts about the multipart copy loop. -/

theorem chunkCount_sub_min_mp {r : Nat} (hr : 0 < r) :
    chunkCount (r - min mpBufSize r) mpBufSize + 1 =
      chunkCount r mpBufSize := by
  rcases le_or_lt r mpBufSize with hle | hlt
  · rw [Nat.min_eq_right hle, Nat.sub_self, chunkCount_zero mpBufSize_pos,
      chunkCount_eq_one mpBufSize_pos hr hle]
  · rw [Nat.min_eq_left hlt.le, chunkCount_succ mpBufSize_pos hlt]

theorem mpWriteLoop_zero (N : Nat) (sched : Nat → Bool) (i w : Nat) :
    mpWriteLoop N sched i w 0 = ([], []) := by
  rw [mpWriteLoop]
  simp

theorem mpWriteLoop_len (N : Nat) (sched : Nat → Bool) : ∀ r i w,
    (mpWriteLoop N sched i w r).1.length = chunkCount r mpBufSize := by
  intro r
  induction r using Nat.strong_induction_on with
  | _ r ih =>
    intro i w
    by_cases hr : 0 < r
    · have hB := mpBufSize_pos
      have hrec := ih (r - min mpBufSize r) (by omega) (i + 1)
        (w + min mpBufSize r)
      rw [mpWriteLoop]
      simp only [dif_pos hr, List.length_cons]
      rw [hrec, chunkCount_sub_min_mp hr]
    · have : r = 0 := by omega
      subst this
      rw [mpWriteLoop_zero]
      simp [chunkCount_zero mpBufSize_pos]

theorem mpWriteLoop_get (N : Nat) (sched : Nat → Bool) : ∀ r i w,
    ∀ k, k < chunkCount r mpBufSize →
    (mpWriteLoop N sched i w r).1.get? k =
      some ⟨w + min ((k + 1) * mpBufSize) r, N⟩ := by
  intro r
  induction r using Nat.strong_induction_on with
  | _ r ih =>
    intro i w k hk
    have hr : 0 < r := chunkCount_pos_rev mpBufSize_pos (by omega)
    have hB := mpBufSize_pos
    rw [mpWriteLoop]
    simp only [dif_pos hr]
    match k with
    | 0 =>
      simp only [List.get?_cons_zero, Option.some.injEq,
        UploadProgress.mk.injEq, mpBufSize]
    | k + 1 =>
      have hK2 : 2 ≤ chunkCount r mpBufSize := by omega
      have hlt : mpBufSize < r := by
        by_contra hle
        rw [chunkCount_eq_one mpBufSize_pos hr (by omega)] at hK2
        omega
      have hn : min mpBufSize r = mpBufSize := Nat.min_eq_left hlt.le
      have hk' : k < chunkCount (r - min mpBufSize r) mpBufSize := by
        have := chunkCount_sub_min_mp hr
        omega
      have hrec := ih (r - min mpBufSize r) (by omega) (i + 1)
        (w + min mpBufSize r) k hk'
      simp only [List.get?_cons_succ]
      rw [hrec, hn]
      simp only [Option.some.injEq, UploadProgress.mk.injEq,
        eq_self_iff_true, and_true]
      simp only [mpBufSize] at hlt ⊢
      omega

theorem mpWriteLoop_sched_irrelevant (N : Nat)
    (sched₁ sched₂ : Nat → Bool) : ∀ r i w,
    (mpWriteLoop N sched₁ i w r).1 = (mpWriteLoop N sched₂ i w r).1 := by
  intro r
  induction r using Nat.strong_induction_on with
  | _ r ih =>
    intro i w
    by_cases hr : 0 < r
    · have hB := mpBufSize_pos
      rw [mpWriteLoop, mpWriteLoop]
      simp only [dif_pos hr, List.cons.injEq, true_and]
      exact ih (r - min mpBufSize r) (by omega) (i + 1) (w + min mpBufSize r)
    · have : r = 0 := by omega
      subst this
      rw [mpWriteLoop_zero, mpWriteLoop_zero]

theorem mpWriteLoop_delivered (N : Nat) (sched : Nat → Bool) : ∀ r i w,
    (mpWriteLoop N sched i w r).2 =
      keepScheduled sched i (mpWriteLoop N sched i w r).1 := by
  intro r
  induction r using Nat.strong_induction_on with
  | _ r ih =>
    intro i w
    by_cases hr : 0 < r
    · have hB := mpBufSize_pos
      rw [mpWriteLoop]
      simp only [dif_pos hr]
      rw [keepScheduled_cons,
        ih (r - min mpBufSize r) (by omega) (i + 1) (w + min mpBufSize r)]
    · have : r = 0 := by omega
      subst this
      rw [mpWriteLoop_zero]
      simp [keepScheduled_nil]

theorem mpWriteLoop_bounds (N : Nat) (sched : Nat → Bool) : ∀ r i w,
    ∀ u ∈ (mpWriteLoop N sched i w r).1,
      w < u.BytesSent ∧ u.BytesTotal = N := by
  intro r
  induction r using Nat.strong_induction_on with
  | _ r ih =>
    intro i w u hu
    by_cases hr : 0 < r
    · have hB := mpBufSize_pos
      rw [mpWriteLoop] at hu
      simp only [dif_pos hr, List.mem_cons] at hu
      rcases hu with hu | hu
      · subst hu
        exact ⟨by simp only []; omega, rfl⟩
      · have := ih (r - min mpBufSize r) (by omega) (i + 1)
          (w + min mpBufSize r) u hu
        omega
    · have : r = 0 := by omega
      subst this
      rw [mpWriteLoop_zero] at hu
      simp at hu

theorem mpWriteLoop_chain (N : Nat) (sched : Nat → Bool) : ∀ r i w,
    List.Chain' (fun a b => a.BytesSent ≤ b.BytesSent)
      (mpWriteLoop N sched i w r).1 := by
  intro r
  induction r using Nat.strong_induction_on with
  | _ r ih =>
    intro i w
    by_cases hr : 0 < r
    · have hB := mpBufSize_pos
      rw [mpWriteLoop]
      simp only [dif_pos hr]
      rw [List.chain'_cons']
      constructor
      · intro y hy
        have hmem : y ∈ (mpWriteLoop N sched (i + 1)
            (w + min mpBufSize r) (r - min mpBufSize r)).1 :=
          List.mem_of_mem_head? hy
        have := mpWriteLoop_bounds N sched _ _ _ y hmem
        simp only []
        omega
      · exact ih (r - min mpBufSize r) (by omega) (i + 1)
          (w + min mpBufSize r)
    · have : r = 0 := by omega
      subst this
      rw [mpWriteLoop_zero]
      simp

theorem mpWriteLoop_last (N : Nat) (sched : Nat → Bool) : ∀ r i w, 0 < r →
    (mpWriteLoop N sched i w r).1.getLast? = some ⟨w + r, N⟩ := by
  intro r
  induction r using Nat.strong_induction_on with
  | _ r ih =>
    intro i w hr
    have hB := mpBufSize_pos
    rw [mpWriteLoop]
    simp only [dif_pos hr]
    by_cases hr' : 0 < r - min mpBufSize r
    · have hrec := ih (r - min mpBufSize r) (by omega) (i + 1)
        (w + min mpBufSize r) hr'
      rcases hsends : (mpWriteLoop N sched (i + 1)
          (w + min mpBufSize r) (r - min mpBufSize r)).1 with _ | ⟨x, xs⟩
      · rw [hsends] at hrec
        simp at hrec
      · rw [hsends] at hrec
        rw [List.getLast?_cons_cons, hrec]
        simp only [Option.some.injEq, UploadProgress.mk.injEq, and_true]
        omega
    · have hz : r - min mpBufSize r = 0 := by omega
      rw [hz, mpWriteLoop_zero]
      simp only [List.getLast?_singleton, Option.some.injEq,
        UploadProgress.mk.injEq, and_true]
      omega

/-! Facts about session opening and the two uploaders. -/

theorem tusOpenSession_bad_status (t : String) (N : Nat)
    (opts : UploadOptions) (env : TusEnv) (h : env.createStatus ≠ 201) :
    tusOpenSession t N opts env =
      ([Request.tusCreate t N (uploadMetadataOf opts)],
        .error (.tusInitFailed env.createStatus)) := by
  unfold tusOpenSession
  simp [h]

theorem tusOpenSession_no_location (t : String) (N : Nat)
    (opts : UploadOptions) (env : TusEnv) (h201 : env.createStatus = 201)
    (hloc : env.location = "") :
    tusOpenSession t N opts env =
      ([Request.tusCreate t N (uploadMetadataOf opts)],
        .error .locationMissing) := by
  unfold tusOpenSession
  simp [h201, hloc]

theorem tusOpenSession_opened (t : String) (N : Nat)
    (opts : UploadOptions) (env : TusEnv) (h201 : env.createStatus = 201)
    (hloc : env.location ≠ "") :
    tusOpenSession t N opts env =
      ([Request.tusCreate t N (uploadMetadataOf opts)],
        .ok (env.location, trailingSegment env.location)) := by
  unfold tusOpenSession
  simp only [h201, ne_eq, not_true_eq_false, if_false, hloc, if_neg]
  cases hgl : (splitSlash env.location).getLast? with
  | none =>
      exact absurd (List.getLast?_eq_none_iff.mp hgl)
        (splitSlash_ne_nil env.location)
  | some v =>
      simp [trailingSegment, hgl]

theorem tusUploadDirect_bad_status (t : String) (N : Nat)
    (opts : UploadOptions) (env : TusEnv) (sched : Nat → Bool)
    (h : env.createStatus ≠ 201) :
    tusUploadDirect t N opts env sched =
      ⟨[Request.tusCreate t N (uploadMetadataOf opts)], [], [],
        .error (.tusInitFailed env.createStatus)⟩ := by
  unfold tusUploadDirect
  rw [tusOpenSession_bad_status t N opts env h]

theorem tusUploadDirect_no_location (t : String) (N : Nat)
    (opts : UploadOptions) (env : TusEnv) (sched : Nat → Bool)
    (h201 : env.createStatus = 201) (hloc : env.location = "") :
    tusUploadDirect t N opts env sched =
      ⟨[Request.tusCreate t N (uploadMetadataOf opts)], [], [],
        .error .locationMissing⟩ := by
  unfold tusUploadDirect
  rw [tusOpenSession_no_location t N opts env h201 hloc]

theorem tusUploadDirect_opened (t : String) (N : Nat)
    (opts : UploadOptions) (env : TusEnv) (sched : Nat → Bool)
    (h201 : env.createStatus = 201) (hloc : env.location ≠ "") :
    tusUploadDirect t N opts env sched =
      ⟨Request.tusCreate t N (uploadMetadataOf opts) ::
          (tusChunkLoop env.location N env.chunkStatus sched 0 0 N).1,
        (tusChunkLoop env.location N env.chunkStatus sched 0 0 N).2.1,
        (tusChunkLoop env.location N env.chunkStatus sched 0 0 N).2.2.1,
        (tusChunkLoop env.location N env.chunkStatus sched 0 0 N).2.2.2.2.map
          fun _ => trailingSegment env.location⟩ := by
  unfold tusUploadDirect
  rw [tusOpenSession_opened t N opts env h201 hloc]
  rfl

theorem multipartUpload_ok (url : String) (N : Nat) (opts : UploadOptions)
    (status : Nat) (sched : Nat → Bool)
    (hst : status = 200 ∨ status = 201) :
    multipartUpload url N opts status sched =
      ⟨[Request.multipartPost url N], (mpWriteLoop N sched 0 0 N).1,
        (mpWriteLoop N sched 0 0 N).2, .ok ()⟩ := by
  unfold multipartUpload
  rw [if_pos hst]

theorem multipartUpload_fail (url : String) (N : Nat) (opts : UploadOptions)
    (status : Nat) (sched : Nat → Bool)
    (hst : ¬(status = 200 ∨ status = 201)) :
    multipartUpload url N opts status sched =
      ⟨[Request.multipartPost url N], (mpWriteLoop N sched 0 0 N).1,
        (mpWriteLoop N sched 0 0 N).2,
        .error (.multipartFailed status)⟩ := by
  unfold multipartUpload
  rw [if_neg hst]

theorem UploadFile_empty_path (acct : String) (optsIn : Option UploadOptions)
    (env : UploadEnv) (sched : Nat → Bool) :
    UploadFile acct "" optsIn env sched =
      ⟨[], [], [], .error (.invalidInput "file path cannot be empty")⟩ := by
  unfold UploadFile
  simp

theorem UploadFile_open_fail (acct p : String)
    (optsIn : Option UploadOptions) (env : UploadEnv) (sched : Nat → Bool)
    (e : UploadError) (hp : p ≠ "") (hof : env.openFile p = .error e) :
    UploadFile acct p optsIn env sched =
      ⟨[], [], [], .error (.wrapped "failed to open file" e)⟩ := by
  unfold UploadFile
  rw [if_neg hp, hof]

theorem UploadFile_tus_branch (acct p : String)
    (optsIn : Option UploadOptions) (env : UploadEnv) (sched : Nat → Bool)
    (N : Nat) (hp : p ≠ "") (hof : env.openFile p = .ok N)
    (hN : tusThreshold ≤ N) :
    UploadFile acct p optsIn env sched =
      uploadTusStage acct N (optsIn.getD defaultUploadOptions) env sched := by
  unfold UploadFile
  rw [if_neg hp, hof]
  simp only [ge_iff_le, hN, if_pos]

theorem UploadFile_mp_branch (acct p : String)
    (optsIn : Option UploadOptions) (env : UploadEnv) (sched : Nat → Bool)
    (N : Nat) (hp : p ≠ "") (hof : env.openFile p = .ok N)
    (hN : N < tusThreshold) :
    UploadFile acct p optsIn env sched =
      uploadMpStage N (optsIn.getD defaultUploadOptions) env sched := by
  unfold UploadFile
  rw [if_neg hp, hof]
  simp only [ge_iff_le]
  rw [if_neg (by omega)]

/-! Claim theorems. -/

theorem tusUploadDirect_patches (t : String) (N : Nat)
    (opts : UploadOptions) (env : TusEnv) (sched : Nat → Bool)
    (h201 : env.createStatus = 201) (hloc : env.location ≠ "") :
    (tusUploadDirect t N opts env sched).requests.filter Request.isTusPatch =
      (tusChunkLoop env.location N env.chunkStatus sched 0 0 N).1 := by
  rw [tusUploadDirect_opened t N opts env sched h201 hloc]
  show List.filter _ (_ :: _) = _
  rw [List.filter_cons_of_neg]
  · exact List.filter_eq_self.mpr
      (tusChunkLoop_req_patch env.location N env.chunkStatus sched N 0 0)
  · simp [Request.isTusPatch]

/-- C1: for every file of size N uploaded through the resumable (TUS) path
with chunk size C = 50 MiB, `tusUploadDirect` issues exactly `ceil(N/C)`
chunk PATCH requests; the k-th PATCH carries Upload-Offset `k*C` (so the
offsets are 0, C, 2C, ... in order) and content length `min C (N - k*C)`;
the final chunk has length `N mod C`, or `C` when N is an exact multiple
of C. -/
theorem C1_tus_chunking (t : String) (N : Nat) (opts : UploadOptions)
    (env : TusEnv) (sched : Nat → Bool)
    (h201 : env.createStatus = 201) (hloc : env.location ≠ "")
    (h204 : ∀ k, env.chunkStatus k = 204) :
    ((tusUploadDirect t N opts env sched).requests.filter
        Request.isTusPatch).length = chunkCount N chunkSize ∧
      (∀ k, k < chunkCount N chunkSize →
        ((tusUploadDirect t N opts env sched).requests.filter
            Request.isTusPatch).get? k =
          some (Request.tusPatch env.location (k * chunkSize)
            (min chunkSize (N - k * chunkSize)))) ∧
      (0 < N →
        ((tusUploadDirect t N opts env sched).requests.filter
            Request.isTusPatch).getLast? =
          some (Request.tusPatch env.location
            ((chunkCount N chunkSize - 1) * chunkSize)
            (if N % chunkSize = 0 then chunkSize else N % chunkSize))) := by
  have hfilter := tusUploadDirect_patches t N opts env sched h201 hloc
  have h204' : ∀ k, k < chunkCount N chunkSize →
      env.chunkStatus (0 + k) = 204 := fun k _ => by simpa using h204 k
  have hlen := (tusChunkLoop_len env.location N env.chunkStatus sched
    N 0 0 h204').1
  refine ⟨by rw [hfilter, hlen], ?_, ?_⟩
  · intro k hk
    rw [hfilter]
    have := tusChunkLoop_get_req env.location N env.chunkStatus sched
      N 0 0 h204' k hk
    simpa using this
  · intro hN
    have hKpos : 0 < chunkCount N chunkSize :=
      chunkCount_pos chunkSize_pos hN
    rw [hfilter, List.getLast?_eq_get?, hlen]
    have := tusChunkLoop_get_req env.location N env.chunkStatus sched
      N 0 0 h204' (chunkCount N chunkSize - 1) (by omega)
    rw [this]
    simp only [Option.some.injEq, Request.tusPatch.injEq,
      eq_self_iff_true, true_and, zero_add]
    by_cases hmod : N % chunkSize = 0
    · rw [if_pos hmod]
      unfold chunkCount chunkSize at *
      omega
    · rw [if_neg hmod]
      unfold chunkCount chunkSize at *
      omega

/-- Witness for C1 at a concrete input: a 220 MiB file against a healthy
server environment. -/
theorem C1_witness :
    (((201 : Nat) = 201 ∧ ("https://x/stream/abc" : String) ≠ "") ∧
      ((tusUploadDirect "https://x/stream" 230686720 defaultUploadOptions
          ⟨201, "https://x/stream/abc", fun _ => 204⟩
          (fun _ => true)).requests.filter
        Request.isTusPatch).length = chunkCount 230686720 chunkSize) :=
  ⟨⟨rfl, by decide⟩,
    (C1_tus_chunking "https://x/stream" 230686720 defaultUploadOptions
      ⟨201, "https://x/stream/abc", fun _ => 204⟩ (fun _ => true)
      rfl (by decide) (fun _ => rfl)).1⟩

theorem tusUploadDirect_req_head (t : String) (N : Nat)
    (opts : UploadOptions) (env : TusEnv) (sched : Nat → Bool) :
    (tusUploadDirect t N opts env sched).requests.head? =
      some (Request.tusCreate t N (uploadMetadataOf opts)) ∧
    (tusUploadDirect t N opts env sched).requests ≠ [] := by
  by_cases h201 : env.createStatus = 201
  · by_cases hloc : env.location = ""
    · rw [tusUploadDirect_no_location t N opts env sched h201 hloc]
      exact ⟨rfl, by simp⟩
    · rw [tusUploadDirect_opened t N opts env sched h201 hloc]
      exact ⟨rfl, by simp⟩
  · rw [tusUploadDirect_bad_status t N opts env sched h201]
    exact ⟨rfl, by simp⟩

theorem tusUploadDirect_req_kinds (t : String) (N : Nat)
    (opts : UploadOptions) (env : TusEnv) (sched : Nat → Bool) :
    ∀ q ∈ (tusUploadDirect t N opts env sched).requests,
      q.isTusCreate = true ∨ q.isTusPatch = true := by
  intro q hq
  by_cases h201 : env.createStatus = 201
  · by_cases hloc : env.location = ""
    · rw [tusUploadDirect_no_location t N opts env sched h201 hloc] at hq
      simp only [List.mem_singleton] at hq
      subst hq; left; rfl
    · rw [tusUploadDirect_opened t N opts env sched h201 hloc] at hq
      simp only [List.mem_cons] at hq
      rcases hq with hq | hq
      · subst hq; left; rfl
      · right
        exact tusChunkLoop_req_patch env.location N env.chunkStatus sched
          N 0 0 q hq
  · rw [tusUploadDirect_bad_status t N opts env sched h201] at hq
    simp only [List.mem_singleton] at hq
    subst hq; left; rfl

theorem getVideoCall_reqs (videoID : String)
    (lookup : String → Except UploadError Video) :
    ∀ q ∈ (getVideoCall videoID lookup).1, q = Request.getVideo videoID := by
  intro q hq
  unfold getVideoCall at hq
  by_cases h : videoID = ""
  · simp [h] at hq
  · simp [h] at hq
    exact hq

theorem uploadTusStage_req_head (acct : String) (N : Nat)
    (opts : UploadOptions) (env : UploadEnv) (sched : Nat → Bool) :
    (uploadTusStage acct N opts env sched).requests.head? =
      some (Request.tusCreate (tusURLFor acct) N (uploadMetadataOf opts)) := by
  have hh := tusUploadDirect_req_head (tusURLFor acct) N opts env.tus sched
  unfold uploadTusStage
  cases hres : (tusUploadDirect (tusURLFor acct) N opts
      env.tus sched).result with
  | error e =>
      simp only [hres]
      exact hh.1
  | ok vid =>
      cases hg : (getVideoCall vid env.videoLookup).2 with
      | error e =>
          simp only [hres, hg]
          rw [List.head?_append_of_ne_nil _ hh.2]
          exact hh.1
      | ok v =>
          simp only [hres, hg]
          rw [List.head?_append_of_ne_nil _ hh.2]
          exact hh.1

theorem uploadTusStage_req_kinds (acct : String) (N : Nat)
    (opts : UploadOptions) (env : UploadEnv) (sched : Nat → Bool) :
    ∀ q ∈ (uploadTusStage acct N opts env sched).requests,
      q.isCreateDirectUpload = false ∧ q.isMultipartPost = false := by
  have hkinds := tusUploadDirect_req_kinds (tusURLFor acct) N opts
    env.tus sched
  have hclear : ∀ q ∈ (tusUploadDirect (tusURLFor acct) N opts
      env.tus sched).requests,
      q.isCreateDirectUpload = false ∧ q.isMultipartPost = false := by
    intro q hq
    rcases hkinds q hq with h | h <;> cases q <;> simp_all [Request.isTusCreate,
      Request.isTusPatch, Request.isCreateDirectUpload, Request.isMultipartPost]
  intro q hq
  unfold uploadTusStage at hq
  cases hres : (tusUploadDirect (tusURLFor acct) N opts
      env.tus sched).result with
  | error e =>
      simp only [hres] at hq
      exact hclear q hq
  | ok vid =>
      cases hg : (getVideoCall vid env.videoLookup).2 with
      | error e =>
          simp only [hres, hg] at hq
          rcases List.mem_append.mp hq with hq | hq
          · exact hclear q hq
          · have := getVideoCall_reqs _ env.videoLookup q hq
            subst this
            exact ⟨rfl, rfl⟩
      | ok v =>
          simp only [hres, hg] at hq
          rcases List.mem_append.mp hq with hq | hq
          · exact hclear q hq
          · have := getVideoCall_reqs _ env.videoLookup q hq
            subst this
            exact ⟨rfl, rfl⟩

theorem uploadMpStage_req_head (N : Nat) (opts : UploadOptions)
    (env : UploadEnv) (sched : Nat → Bool) :
    (uploadMpStage N opts env sched).requests.head? =
      some (Request.createDirectUpload 21600 true) := by
  unfold uploadMpStage createDirectUploadURL
  cases hd : env.directResp with
  | error e => simp [hd]
  | ok direct =>
      cases hm : (multipartUpload direct.UploadURL N opts
          env.mpStatus sched).result with
      | error e => simp [hd, hm]
      | ok u =>
          cases hg : (getVideoCall direct.UID env.videoLookup).2 with
          | error e => simp [hd, hm, hg]
          | ok v => simp [hd, hm, hg]

theorem multipartUpload_reqs (url : String) (N : Nat)
    (opts : UploadOptions) (status : Nat) (sched : Nat → Bool) :
    (multipartUpload url N opts status sched).requests =
      [Request.multipartPost url N] := by
  unfold multipartUpload
  split <;> rfl

theorem uploadMpStage_req_kinds (N : Nat) (opts : UploadOptions)
    (env : UploadEnv) (sched : Nat → Bool) :
    ∀ q ∈ (uploadMpStage N opts env sched).requests,
      q.isTusCreate = false ∧ q.isTusPatch = false := by
  intro q hq
  unfold uploadMpStage createDirectUploadURL at hq
  cases hd : env.directResp with
  | error e =>
      simp only [hd, List.mem_singleton] at hq
      subst hq; exact ⟨rfl, rfl⟩
  | ok direct =>
      cases hm : (multipartUpload direct.UploadURL N opts
          env.mpStatus sched).result with
      | error e =>
          simp only [hd, hm, multipartUpload_reqs, List.mem_append,
            List.mem_singleton] at hq
          rcases hq with hq | hq <;> (subst hq; exact ⟨rfl, rfl⟩)
      | ok u =>
          cases hg : (getVideoCall direct.UID env.videoLookup).2 with
          | error e =>
              simp only [hd, hm, hg, multipartUpload_reqs, List.mem_append,
                List.mem_singleton] at hq
              rcases hq with (hq | hq) | hq
              · subst hq; exact ⟨rfl, rfl⟩
              · subst hq; exact ⟨rfl, rfl⟩
              · have := getVideoCall_reqs _ env.videoLookup q hq
                subst this; exact ⟨rfl, rfl⟩
          | ok v =>
              simp only [hd, hm, hg, multipartUpload_reqs, List.mem_append,
                List.mem_singleton] at hq
              rcases hq with (hq | hq) | hq
              · subst hq; exact ⟨rfl, rfl⟩
              · subst hq; exact ⟨rfl, rfl⟩
              · have := getVideoCall_reqs _ env.videoLookup q hq
                subst this; exact ⟨rfl, rfl⟩

/-- C2: `UploadFile` selects the strategy from the file size alone, with
threshold 200 MiB: strictly below the threshold it runs the single-shot
multipart path (first request: direct-upload-URL creation; no TUS request
ever issued), and at or above the threshold (including exactly at it) it
runs the resumable TUS path (first request: TUS session creation; no
direct-upload or multipart request ever issued). A TUS session-open
request appears in the run exactly when the size reaches the threshold. -/
theorem C2_strategy_selection (acct p : String)
    (optsIn : Option UploadOptions) (env : UploadEnv) (sched : Nat → Bool)
    (N : Nat) (hp : p ≠ "") (hof : env.openFile p = .ok N) :
    (N < tusThreshold →
      (UploadFile acct p optsIn env sched).requests.head? =
          some (Request.createDirectUpload 21600 true) ∧
        ∀ q ∈ (UploadFile acct p optsIn env sched).requests,
          q.isTusCreate = false ∧ q.isTusPatch = false) ∧
      (tusThreshold ≤ N →
        (UploadFile acct p optsIn env sched).requests.head? =
            some (Request.tusCreate (tusURLFor acct) N
              (uploadMetadataOf (optsIn.getD defaultUploadOptions))) ∧
          ∀ q ∈ (UploadFile acct p optsIn env sched).requests,
            q.isCreateDirectUpload = false ∧ q.isMultipartPost = false) ∧
      ((∃ q ∈ (UploadFile acct p optsIn env sched).requests,
          q.isTusCreate = true) ↔ tusThreshold ≤ N) := by
  refine ⟨?_, ?_, ?_⟩
  · intro hN
    rw [UploadFile_mp_branch acct p optsIn env sched N hp hof hN]
    exact ⟨uploadMpStage_req_head _ _ _ _, uploadMpStage_req_kinds _ _ _ _⟩
  · intro hN
    rw [UploadFile_tus_branch acct p optsIn env sched N hp hof hN]
    exact ⟨uploadTusStage_req_head _ _ _ _ _,
      uploadTusStage_req_kinds _ _ _ _ _⟩
  · constructor
    · rintro ⟨q, hq, hq2⟩
      by_contra hN
      push_neg at hN
      rw [UploadFile_mp_branch acct p optsIn env sched N hp hof hN] at hq
      have := (uploadMpStage_req_kinds _ _ _ _ q hq).1
      rw [hq2] at this
      cases this
    · intro hN
      rw [UploadFile_tus_branch acct p optsIn env sched N hp hof hN]
      have hhead := uploadTusStage_req_head acct N
        (optsIn.getD defaultUploadOptions) env sched
      exact ⟨Request.tusCreate (tusURLFor acct) N
        (uploadMetadataOf (optsIn.getD defaultUploadOptions)),
        List.mem_of_mem_head? hhead, rfl⟩

/-- Witness for C2 at a concrete input: a 5-byte file goes through the
multipart path. -/
theorem C2_witness :
    (("f" : String) ≠ "" ∧
      (Except.ok 5 : Except UploadError Nat) = .ok 5 ∧
      (5 : Nat) < tusThreshold) ∧
    (UploadFile "acct" "f" none
        ⟨fun _ => .ok 5, .ok ⟨"u", "uid"⟩, 200,
          ⟨201, "a/b", fun _ => 204⟩, fun s => .ok ⟨s, "n", "ready"⟩⟩
        (fun _ => true)).requests.head? =
      some (Request.createDirectUpload 21600 true) :=
  ⟨⟨by decide, rfl, by decide⟩,
    ((C2_strategy_selection "acct" "f" none
      ⟨fun _ => .ok 5, .ok ⟨"u", "uid"⟩, 200,
        ⟨201, "a/b", fun _ => 204⟩, fun s => .ok ⟨s, "n", "ready"⟩⟩
      (fun _ => true) 5 (by decide) rfl).1 (by decide)).1⟩

theorem uploadTusStage_err (acct : String) (N : Nat) (opts : UploadOptions)
    (env : UploadEnv) (sched : Nat → Bool) (e : UploadError)
    (h : (tusUploadDirect (tusURLFor acct) N opts env.tus sched).result =
      .error e) :
    uploadTusStage acct N opts env sched =
      ⟨(tusUploadDirect (tusURLFor acct) N opts env.tus sched).requests,
        (tusUploadDirect (tusURLFor acct) N opts env.tus sched).sends,
        (tusUploadDirect (tusURLFor acct) N opts env.tus sched).delivered,
        .error (.wrapped "TUS upload failed" e)⟩ := by
  unfold uploadTusStage
  simp only [h]

theorem uploadTusStage_ok_err (acct : String) (N : Nat)
    (opts : UploadOptions) (env : UploadEnv) (sched : Nat → Bool)
    (vid : String) (e : UploadError)
    (h : (tusUploadDirect (tusURLFor acct) N opts env.tus sched).result =
      .ok vid)
    (hg : (getVideoCall vid env.videoLookup).2 = .error e) :
    uploadTusStage acct N opts env sched =
      ⟨(tusUploadDirect (tusURLFor acct) N opts env.tus sched).requests ++
          (getVideoCall vid env.videoLookup).1,
        (tusUploadDirect (tusURLFor acct) N opts env.tus sched).sends,
        (tusUploadDirect (tusURLFor acct) N opts env.tus sched).delivered,
        .error (.wrapped "failed to get video details" e)⟩ := by
  unfold uploadTusStage
  simp only [h, hg]

theorem uploadTusStage_ok_ok (acct : String) (N : Nat)
    (opts : UploadOptions) (env : UploadEnv) (sched : Nat → Bool)
    (vid : String) (v : Video)
    (h : (tusUploadDirect (tusURLFor acct) N opts env.tus sched).result =
      .ok vid)
    (hg : (getVideoCall vid env.videoLookup).2 = .ok v) :
    uploadTusStage acct N opts env sched =
      ⟨(tusUploadDirect (tusURLFor acct) N opts env.tus sched).requests ++
          (getVideoCall vid env.videoLookup).1,
        (tusUploadDirect (tusURLFor acct) N opts env.tus sched).sends,
        (tusUploadDirect (tusURLFor acct) N opts env.tus sched).delivered,
        .ok v⟩ := by
  unfold uploadTusStage
  simp only [h, hg]

theorem uploadMpStage_dir_err (N : Nat) (opts : UploadOptions)
    (env : UploadEnv) (sched : Nat → Bool) (e : UploadError)
    (h : env.directResp = .error e) :
    uploadMpStage N opts env sched =
      ⟨[Request.createDirectUpload 21600 true], [], [],
        .error (.wrapped "failed to create direct upload URL" e)⟩ := by
  unfold uploadMpStage createDirectUploadURL
  simp only [h]

theorem uploadMpStage_mp_err (N : Nat) (opts : UploadOptions)
    (env : UploadEnv) (sched : Nat → Bool) (d : DirectUploadResult)
    (e : UploadError) (hd : env.directResp = .ok d)
    (hm : (multipartUpload d.UploadURL N opts env.mpStatus sched).result =
      .error e) :
    uploadMpStage N opts env sched =
      ⟨Request.createDirectUpload 21600 true ::
          (multipartUpload d.UploadURL N opts env.mpStatus sched).requests,
        (multipartUpload d.UploadURL N opts env.mpStatus sched).sends,
        (multipartUpload d.UploadURL N opts env.mpStatus sched).delivered,
        .error (.wrapped "upload failed" e)⟩ := by
  unfold uploadMpStage createDirectUploadURL
  simp only [hd, hm]
  rfl

theorem uploadMpStage_ok_err (N : Nat) (opts : UploadOptions)
    (env : UploadEnv) (sched : Nat → Bool) (d : DirectUploadResult)
    (e : UploadError) (hd : env.directResp = .ok d)
    (hm : (multipartUpload d.UploadURL N opts env.mpStatus sched).result =
      .ok ())
    (hg : (getVideoCall d.UID env.videoLookup).2 = .error e) :
    uploadMpStage N opts env sched =
      ⟨(Request.createDirectUpload 21600 true ::
          (multipartUpload d.UploadURL N opts env.mpStatus sched).requests) ++
            (getVideoCall d.UID env.videoLookup).1,
        (multipartUpload d.UploadURL N opts env.mpStatus sched).sends,
        (multipartUpload d.UploadURL N opts env.mpStatus sched).delivered,
        .error (.wrapped "failed to get video details" e)⟩ := by
  unfold uploadMpStage createDirectUploadURL
  simp only [hd, hm, hg]
  rfl

theorem uploadMpStage_ok_ok (N : Nat) (opts : UploadOptions)
    (env : UploadEnv) (sched : Nat → Bool) (d : DirectUploadResult)
    (v : Video) (hd : env.directResp = .ok d)
    (hm : (multipartUpload d.UploadURL N opts env.mpStatus sched).result =
      .ok ())
    (hg : (getVideoCall d.UID env.videoLookup).2 = .ok v) :
    uploadMpStage N opts env sched =
      ⟨(Request.createDirectUpload 21600 true ::
          (multipartUpload d.UploadURL N opts env.mpStatus sched).requests) ++
            (getVideoCall d.UID env.videoLookup).1,
        (multipartUpload d.UploadURL N opts env.mpStatus sched).sends,
        (multipartUpload d.UploadURL N opts env.mpStatus sched).delivered,
        .ok v⟩ := by
  unfold uploadMpStage createDirectUploadURL
  simp only [hd, hm, hg]
  rfl

theorem multipartUpload_sends (url : String) (N : Nat)
    (opts : UploadOptions) (status : Nat) (sched : Nat → Bool) :
    (multipartUpload url N opts status sched).sends =
        (mpWriteLoop N sched 0 0 N).1 ∧
      (multipartUpload url N opts status sched).delivered =
        (mpWriteLoop N sched 0 0 N).2 := by
  unfold multipartUpload
  split <;> exact ⟨rfl, rfl⟩

theorem tusUploadDirect_sends_cases (t : String) (N : Nat)
    (opts : UploadOptions) (env : TusEnv) (sched : Nat → Bool) :
    ((tusUploadDirect t N opts env sched).sends = [] ∧
        (tusUploadDirect t N opts env sched).delivered = []) ∨
      ((tusUploadDirect t N opts env sched).sends =
          (tusChunkLoop env.location N env.chunkStatus sched 0 0 N).2.1 ∧
        (tusUploadDirect t N opts env sched).delivered =
          (tusChunkLoop env.location N env.chunkStatus sched 0 0 N).2.2.1) := by
  by_cases h201 : env.createStatus = 201
  · by_cases hloc : env.location = ""
    · left
      rw [tusUploadDirect_no_location t N opts env sched h201 hloc]
      exact ⟨rfl, rfl⟩
    · right
      rw [tusUploadDirect_opened t N opts env sched h201 hloc]
      exact ⟨rfl, rfl⟩
  · left
    rw [tusUploadDirect_bad_status t N opts env sched h201]
    exact ⟨rfl, rfl⟩

theorem uploadTusStage_sends (acct : String) (N : Nat)
    (opts : UploadOptions) (env : UploadEnv) (sched : Nat → Bool) :
    (uploadTusStage acct N opts env sched).sends =
        (tusUploadDirect (tusURLFor acct) N opts env.tus sched).sends ∧
      (uploadTusStage acct N opts env sched).delivered =
        (tusUploadDirect (tusURLFor acct) N opts env.tus sched).delivered := by
  cases hres : (tusUploadDirect (tusURLFor acct) N opts
      env.tus sched).result with
  | error e =>
      rw [uploadTusStage_err acct N opts env sched e hres]
      exact ⟨rfl, rfl⟩
  | ok vid =>
      cases hg : (getVideoCall vid env.videoLookup).2 with
      | error e =>
          rw [uploadTusStage_ok_err acct N opts env sched vid e hres hg]
          exact ⟨rfl, rfl⟩
      | ok v =>
          rw [uploadTusStage_ok_ok acct N opts env sched vid v hres hg]
          exact ⟨rfl, rfl⟩

theorem uploadMpStage_sends (N : Nat) (opts : UploadOptions)
    (env : UploadEnv) (sched : Nat → Bool) :
    ((uploadMpStage N opts env sched).sends = [] ∧
        (uploadMpStage N opts env sched).delivered = []) ∨
      ((uploadMpStage N opts env sched).sends =
          (mpWriteLoop N sched 0 0 N).1 ∧
        (uploadMpStage N opts env sched).delivered =
          (mpWriteLoop N sched 0 0 N).2) := by
  cases hd : env.directResp with
  | error e =>
      left
      rw [uploadMpStage_dir_err N opts env sched e hd]
      exact ⟨rfl, rfl⟩
  | ok d =>
      right
      cases hm : (multipartUpload d.UploadURL N opts
          env.mpStatus sched).result with
      | error e =>
          rw [uploadMpStage_mp_err N opts env sched d e hd hm]
          exact multipartUpload_sends d.UploadURL N opts env.mpStatus sched
      | ok u =>
          cases u
          cases hg : (getVideoCall d.UID env.videoLookup).2 with
          | error e =>
              rw [uploadMpStage_ok_err N opts env sched d e hd hm hg]
              exact multipartUpload_sends d.UploadURL N opts env.mpStatus sched
          | ok v =>
              rw [uploadMpStage_ok_ok N opts env sched d v hd hm hg]
              exact multipartUpload_sends d.UploadURL N opts env.mpStatus sched

theorem tusUploadDirect_ok_inv (t : String) (N : Nat)
    (opts : UploadOptions) (env : TusEnv) (sched : Nat → Bool) (vid : String)
    (h : (tusUploadDirect t N opts env sched).result = .ok vid) :
    env.createStatus = 201 ∧ env.location ≠ "" ∧
      (tusChunkLoop env.location N env.chunkStatus sched 0 0 N).2.2.2.2 =
        .ok () ∧
      vid = trailingSegment env.location := by
  by_cases h201 : env.createStatus = 201
  · by_cases hloc : env.location = ""
    · rw [tusUploadDirect_no_location t N opts env sched h201 hloc] at h
      simp at h
    · rw [tusUploadDirect_opened t N opts env sched h201 hloc] at h
      cases hres : (tusChunkLoop env.location N env.chunkStatus
          sched 0 0 N).2.2.2.2 with
      | error e =>
          rw [hres] at h
          simp [Except.map] at h
      | ok u =>
          cases u
          rw [hres] at h
          simp only [Except.map, Except.ok.injEq] at h
          exact ⟨h201, hloc, rfl, h.symm⟩
  · rw [tusUploadDirect_bad_status t N opts env sched h201] at h
    simp at h

theorem uploadTusStage_ok_inv (acct : String) (N : Nat)
    (opts : UploadOptions) (env : UploadEnv) (sched : Nat → Bool) (v : Video)
    (h : (uploadTusStage acct N opts env sched).result = .ok v) :
    ∃ vid, (tusUploadDirect (tusURLFor acct) N opts env.tus sched).result =
        .ok vid ∧
      (getVideoCall vid env.videoLookup).2 = .ok v := by
  cases hres : (tusUploadDirect (tusURLFor acct) N opts
      env.tus sched).result with
  | error e =>
      rw [uploadTusStage_err acct N opts env sched e hres] at h
      simp at h
  | ok vid =>
      cases hg : (getVideoCall vid env.videoLookup).2 with
      | error e =>
          rw [uploadTusStage_ok_err acct N opts env sched vid e hres hg] at h
          simp at h
      | ok v' =>
          rw [uploadTusStage_ok_ok acct N opts env sched vid v' hres hg] at h
          simp only [Except.ok.injEq] at h
          subst h
          exact ⟨vid, rfl, hg⟩

theorem multipartUpload_ok_inv (url : String) (N : Nat)
    (opts : UploadOptions) (status : Nat) (sched : Nat → Bool)
    (h : (multipartUpload url N opts status sched).result = .ok ()) :
    status = 200 ∨ status = 201 := by
  by_cases hst : status = 200 ∨ status = 201
  · exact hst
  · rw [multipartUpload_fail url N opts status sched hst] at h
    simp at h

theorem uploadMpStage_ok_inv (N : Nat) (opts : UploadOptions)
    (env : UploadEnv) (sched : Nat → Bool) (v : Video)
    (h : (uploadMpStage N opts env sched).result = .ok v) :
    ∃ d, env.directResp = .ok d ∧
      (multipartUpload d.UploadURL N opts env.mpStatus sched).result =
        .ok () ∧
      (env.mpStatus = 200 ∨ env.mpStatus = 201) ∧
      (getVideoCall d.UID env.videoLookup).2 = .ok v := by
  cases hd : env.directResp with
  | error e =>
      rw [uploadMpStage_dir_err N opts env sched e hd] at h
      simp at h
  | ok d =>
      cases hm : (multipartUpload d.UploadURL N opts
          env.mpStatus sched).result with
      | error e =>
          rw [uploadMpStage_mp_err N opts env sched d e hd hm] at h
          simp at h
      | ok u =>
          cases u
          cases hg : (getVideoCall d.UID env.videoLookup).2 with
          | error e =>
              rw [uploadMpStage_ok_err N opts env sched d e hd hm hg] at h
              simp at h
          | ok v' =>
              rw [uploadMpStage_ok_ok N opts env sched d v' hd hm hg] at h
              simp only [Except.ok.injEq] at h
              subst h
              exact ⟨d, rfl, hm,
                multipartUpload_ok_inv d.UploadURL N opts env.mpStatus
                  sched hm, hg⟩

theorem uploadTusStage_progress (acct : String) (N : Nat)
    (opts : UploadOptions) (env : UploadEnv) (sched : Nat → Bool) :
    List.Chain' (fun a b => a.BytesSent ≤ b.BytesSent)
        (uploadTusStage acct N opts env sched).sends ∧
      (∀ u ∈ (uploadTusStage acct N opts env sched).sends,
        u.BytesTotal = N) ∧
      (∀ v, (uploadTusStage acct N opts env sched).result = .ok v →
        (uploadTusStage acct N opts env sched).sends ≠ [] →
        (uploadTusStage acct N opts env sched).sends.getLast? =
          some ⟨N, N⟩) := by
  obtain ⟨hs, -⟩ := uploadTusStage_sends acct N opts env sched
  rcases tusUploadDirect_sends_cases (tusURLFor acct) N opts env.tus sched
    with ⟨h1, -⟩ | ⟨h1, -⟩
  · rw [hs, h1]
    refine ⟨by simp, by simp, ?_⟩
    intro v hv hne
    exact absurd rfl hne
  · rw [hs, h1]
    refine ⟨tusChunkLoop_send_chain _ _ _ _ _ _ _, ?_, ?_⟩
    · intro u hu
      exact (tusChunkLoop_send_bounds env.tus.location N env.tus.chunkStatus
        sched N 0 0 u hu).2
    · intro v hv hne
      obtain ⟨vid, htus, -⟩ := uploadTusStage_ok_inv acct N opts env sched
        v hv
      obtain ⟨-, -, hloop, -⟩ := tusUploadDirect_ok_inv (tusURLFor acct) N
        opts env.tus sched vid htus
      rcases tusChunkLoop_last_send env.tus.location N env.tus.chunkStatus
        sched N 0 0 hloop with ⟨hnil, -⟩ | hlast
      · exact absurd hnil hne
      · rw [hlast]
        simp

theorem uploadMpStage_progress (N : Nat) (opts : UploadOptions)
    (env : UploadEnv) (sched : Nat → Bool) :
    List.Chain' (fun a b => a.BytesSent ≤ b.BytesSent)
        (uploadMpStage N opts env sched).sends ∧
      (∀ u ∈ (uploadMpStage N opts env sched).sends, u.BytesTotal = N) ∧
      (∀ v, (uploadMpStage N opts env sched).result = .ok v →
        (uploadMpStage N opts env sched).sends ≠ [] →
        (uploadMpStage N opts env sched).sends.getLast? =
          some ⟨N, N⟩) := by
  rcases uploadMpStage_sends N opts env sched with ⟨h1, -⟩ | ⟨h1, -⟩
  · rw [h1]
    refine ⟨by simp, by simp, ?_⟩
    intro v hv hne
    exact absurd rfl hne
  · rw [h1]
    refine ⟨mpWriteLoop_chain _ _ _ _ _, ?_, ?_⟩
    · intro u hu
      exact (mpWriteLoop_bounds N sched N 0 0 u hu).2
    · intro v hv hne
      have hNpos : 0 < N := by
        by_contra hz
        have : N = 0 := by omega
        rw [this, mpWriteLoop_zero] at hne
        exact absurd rfl hne
      rw [mpWriteLoop_last N sched N 0 0 hNpos]
      simp

/-- C3: within one call of `UploadFile` (either path), the generated
progress updates have monotonically non-decreasing `BytesSent`, every
update carries `BytesTotal` equal to the file size, and when the upload
succeeds and at least one update was generated, the final update has
`BytesSent` equal to `BytesTotal`. -/
theorem C3_progress_monotone (acct p : String)
    (optsIn : Option UploadOptions) (env : UploadEnv) (sched : Nat → Bool)
    (N : Nat) (hof : env.openFile p = .ok N) :
    List.Chain' (fun a b => a.BytesSent ≤ b.BytesSent)
        (UploadFile acct p optsIn env sched).sends ∧
      (∀ u ∈ (UploadFile acct p optsIn env sched).sends,
        u.BytesTotal = N) ∧
      (∀ v, (UploadFile acct p optsIn env sched).result = .ok v →
        (UploadFile acct p optsIn env sched).sends ≠ [] →
        (UploadFile acct p optsIn env sched).sends.getLast? =
          some ⟨N, N⟩) := by
  by_cases hp : p = ""
  · subst hp
    rw [UploadFile_empty_path]
    refine ⟨by simp, by simp, ?_⟩
    intro v hv
    simp at hv
  · by_cases hN : tusThreshold ≤ N
    · rw [UploadFile_tus_branch acct p optsIn env sched N hp hof hN]
      exact uploadTusStage_progress acct N (optsIn.getD defaultUploadOptions)
        env sched
    · rw [UploadFile_mp_branch acct p optsIn env sched N hp hof (by omega)]
      exact uploadMpStage_progress N (optsIn.getD defaultUploadOptions)
        env sched

/-- Witness for C3 at a concrete input: a 5-byte file through the
multipart path. -/
theorem C3_witness :
    ((Except.ok 5 : Except UploadError Nat) = .ok 5) ∧
    List.Chain' (fun a b => a.BytesSent ≤ b.BytesSent)
      (UploadFile "acct" "f" none
        ⟨fun _ => .ok 5, .ok ⟨"u", "uid"⟩, 200,
          ⟨201, "a/b", fun _ => 204⟩, fun s => .ok ⟨s, "n", "ready"⟩⟩
        (fun _ => true)).sends :=
  ⟨rfl, (C3_progress_monotone "acct" "f" none
    ⟨fun _ => .ok 5, .ok ⟨"u", "uid"⟩, 200,
      ⟨201, "a/b", fun _ => 204⟩, fun s => .ok ⟨s, "n", "ready"⟩⟩
    (fun _ => true) 5 rfl).1⟩

/-- C4: opening the resumable session succeeds exactly when the server
answers 201 with a non-empty `Location` header; on success the returned
resource identifier is the trailing path segment of that location; any
other status is a hard failure carrying that status; a 201 response with
an empty location yields the distinct, inspectable protocol-violation
error value (`locationMissing`, the "TUS upload location not returned"
error in the source) rather than a crash. -/
theorem C4_session_open (t : String) (N : Nat) (opts : UploadOptions)
    (env : TusEnv) :
    ((∃ pr, (tusOpenSession t N opts env).2 = .ok pr) ↔
        (env.createStatus = 201 ∧ env.location ≠ "")) ∧
      (env.createStatus = 201 → env.location ≠ "" →
        (tusOpenSession t N opts env).2 =
          .ok (env.location, trailingSegment env.location)) ∧
      (env.createStatus ≠ 201 →
        (tusOpenSession t N opts env).2 =
          .error (.tusInitFailed env.createStatus)) ∧
      (env.createStatus = 201 → env.location = "" →
        (tusOpenSession t N opts env).2 = .error .locationMissing) := by
  refine ⟨⟨?_, ?_⟩, ?_, ?_, ?_⟩
  · rintro ⟨pr, hpr⟩
    by_cases h201 : env.createStatus = 201
    · by_cases hloc : env.location = ""
      · rw [tusOpenSession_no_location t N opts env h201 hloc] at hpr
        simp at hpr
      · exact ⟨h201, hloc⟩
    · rw [tusOpenSession_bad_status t N opts env h201] at hpr
      simp at hpr
  · rintro ⟨h201, hloc⟩
    rw [tusOpenSession_opened t N opts env h201 hloc]
    exact ⟨(env.location, trailingSegment env.location), rfl⟩
  · intro h201 hloc
    rw [tusOpenSession_opened t N opts env h201 hloc]
  · intro hbad
    rw [tusOpenSession_bad_status t N opts env hbad]
  · intro h201 hloc
    rw [tusOpenSession_no_location t N opts env h201 hloc]

/-- Witness for C4 at a concrete input: a 201 response whose location is
`a/b/c` yields the identifier `c`. -/
theorem C4_witness :
    (((201 : Nat) = 201 ∧ ("a/b/c" : String) ≠ "") ∧
      (tusOpenSession "t" 100 defaultUploadOptions
        ⟨201, "a/b/c", fun _ => 204⟩).2 =
        .ok ("a/b/c", trailingSegment "a/b/c")) ∧
    trailingSegment "a/b/c" = "c" :=
  ⟨⟨⟨rfl, by decide⟩,
    (C4_session_open "t" 100 defaultUploadOptions
      ⟨201, "a/b/c", fun _ => 204⟩).2.1 rfl (by decide)⟩, by decide⟩

/-- C5: if the first failing chunk PATCH is the j-th one (status other
than 204 while all earlier chunks got 204), `tusUploadDirect` returns the
transport-failure error carrying that status, has issued exactly `j + 1`
PATCH requests (so no chunk after the failed one is sent), has emitted
only `j` progress updates, the cumulative offset stops at `j * C` (not
advanced past the failed chunk), and the last PATCH sent is the failed
one, at offset `j * C`. -/
theorem C5_chunk_failure_aborts (t : String) (N : Nat)
    (opts : UploadOptions) (env : TusEnv) (sched : Nat → Bool) (j : Nat)
    (h201 : env.createStatus = 201) (hloc : env.location ≠ "")
    (hj : j < chunkCount N chunkSize)
    (hfail : env.chunkStatus j ≠ 204)
    (hbefore : ∀ k, k < j → env.chunkStatus k = 204) :
    (tusUploadDirect t N opts env sched).result =
        .error (.chunkFailed (env.chunkStatus j)) ∧
      ((tusUploadDirect t N opts env sched).requests.filter
        Request.isTusPatch).length = j + 1 ∧
      (tusUploadDirect t N opts env sched).sends.length = j ∧
      (tusChunkLoop env.location N env.chunkStatus sched 0 0 N).2.2.2.1 =
        j * chunkSize ∧
      ((tusUploadDirect t N opts env sched).requests.filter
        Request.isTusPatch).getLast? =
        some (Request.tusPatch env.location (j * chunkSize)
          (min chunkSize (N - j * chunkSize))) := by
  have hfail' : env.chunkStatus (0 + j) ≠ 204 := by simpa using hfail
  have hbefore' : ∀ k, k < j → env.chunkStatus (0 + k) = 204 := by
    intro k hk
    simpa using hbefore k hk
  have hfl := tusChunkLoop_fail env.location N env.chunkStatus sched
    N 0 0 j hj hfail' hbefore'
  have hfilter := tusUploadDirect_patches t N opts env sched h201 hloc
  refine ⟨?_, ?_, ?_, ?_, ?_⟩
  · rw [tusUploadDirect_opened t N opts env sched h201 hloc]
    show Except.map _ _ = _
    rw [hfl.2.2.2.2]
    simp [Except.map]
  · rw [hfilter, hfl.1]
  · rw [tusUploadDirect_opened t N opts env sched h201 hloc]
    show (tusChunkLoop env.location N env.chunkStatus sched 0 0 N).2.1.length
      = j
    exact hfl.2.2.1
  · have := hfl.2.2.2.1
    simpa using this
  · rw [hfilter, List.getLast?_eq_get?, hfl.1]
    have := hfl.2.1 j (le_refl j)
    simp only [Nat.add_sub_cancel]
    rw [this]
    simp

/-- Witness for C5 at a concrete input: a 220 MiB file whose third chunk
PATCH is answered with status 500. -/
theorem C5_witness :
    ((2 : Nat) < chunkCount 230686720 chunkSize ∧
      (if (2 : Nat) < 2 then (204 : Nat) else 500) ≠ 204) ∧
    (tusUploadDirect "t" 230686720 defaultUploadOptions
        ⟨201, "a/b", fun k => if k < 2 then 204 else 500⟩
        (fun _ => true)).result =
      .error (.chunkFailed 500) :=
  ⟨⟨by decide, by decide⟩,
    (C5_chunk_failure_aborts "t" 230686720 defaultUploadOptions
      ⟨201, "a/b", fun k => if k < 2 then 204 else 500⟩ (fun _ => true) 2
      rfl (by decide) (by decide) (by decide) (by decide)).1⟩

theorem isMatch_refl (e : UploadError) : e.isMatch e = true := by
  unfold UploadError.isMatch
  simp

theorem isMatch_wrapped (ctx : String) (e : UploadError) :
    (UploadError.wrapped ctx e).isMatch e = true := by
  unfold UploadError.isMatch
  show (decide (UploadError.wrapped ctx e = e) || e.isMatch e) = true
  rw [isMatch_refl]
  simp

/-- C6 counterexample: the claim says an uploader failure is propagated
unchanged, but `UploadFile` wraps it. With a server refusing the TUS
session open with status 500, the strategy fails with `tusInitFailed 500`
while `UploadFile` returns that error wrapped in the
"TUS upload failed" context — a different error value. -/
theorem C6_counterexample :
    (tusUploadDirect (tusURLFor "acct") tusThreshold defaultUploadOptions
        ⟨500, "", fun _ => 204⟩ (fun _ => true)).result =
      .error (.tusInitFailed 500) ∧
    (UploadFile "acct" "f" none
        ⟨fun _ => .ok tusThreshold, .ok ⟨"u", "uid"⟩, 200,
          ⟨500, "", fun _ => 204⟩, fun s => .ok ⟨s, "n", "r"⟩⟩
        (fun _ => true)).result =
      .error (.wrapped "TUS upload failed" (.tusInitFailed 500)) ∧
    (UploadFile "acct" "f" none
        ⟨fun _ => .ok tusThreshold, .ok ⟨"u", "uid"⟩, 200,
          ⟨500, "", fun _ => 204⟩, fun s => .ok ⟨s, "n", "r"⟩⟩
        (fun _ => true)).result ≠ .error (.tusInitFailed 500) := by
  refine ⟨rfl, rfl, ?_⟩
  decide

/-- C6 (amended): whenever the executed strategy succeeds, `UploadFile`
fetches the resource through `GetVideo` with the identifier obtained from
that strategy and returns the fetched record; whenever the executed
strategy fails, `UploadFile` returns that error wrapped with a fixed
context message — the strategy error is preserved as the inspectable cause
(`errors.Is`-style match) — and performs no retry: the request trace stays
exactly the failed attempt's requests. -/
theorem C6_fetch_after_upload (acct p : String)
    (optsIn : Option UploadOptions) (env : UploadEnv) (sched : Nat → Bool)
    (N : Nat) (hp : p ≠ "") (hof : env.openFile p = .ok N) :
    (tusThreshold ≤ N →
      (∀ vid v,
        (tusUploadDirect (tusURLFor acct) N (optsIn.getD defaultUploadOptions)
            env.tus sched).result = .ok vid →
        (getVideoCall vid env.videoLookup).2 = .ok v →
        (UploadFile acct p optsIn env sched).result = .ok v ∧
          (UploadFile acct p optsIn env sched).requests =
            (tusUploadDirect (tusURLFor acct) N
                (optsIn.getD defaultUploadOptions) env.tus sched).requests ++
              (getVideoCall vid env.videoLookup).1) ∧
      (∀ e,
        (tusUploadDirect (tusURLFor acct) N (optsIn.getD defaultUploadOptions)
            env.tus sched).result = .error e →
        (UploadFile acct p optsIn env sched).result =
            .error (.wrapped "TUS upload failed" e) ∧
          (UploadError.wrapped "TUS upload failed" e).isMatch e = true ∧
          (UploadFile acct p optsIn env sched).requests =
            (tusUploadDirect (tusURLFor acct) N
              (optsIn.getD defaultUploadOptions) env.tus sched).requests)) ∧
    (N < tusThreshold →
      (∀ d v, env.directResp = .ok d →
        (multipartUpload d.UploadURL N (optsIn.getD defaultUploadOptions)
            env.mpStatus sched).result = .ok () →
        (getVideoCall d.UID env.videoLookup).2 = .ok v →
        (UploadFile acct p optsIn env sched).result = .ok v) ∧
      (∀ d e, env.directResp = .ok d →
        (multipartUpload d.UploadURL N (optsIn.getD defaultUploadOptions)
            env.mpStatus sched).result = .error e →
        (UploadFile acct p optsIn env sched).result =
            .error (.wrapped "upload failed" e) ∧
          (UploadError.wrapped "upload failed" e).isMatch e = true ∧
          (UploadFile acct p optsIn env sched).requests =
            Request.createDirectUpload 21600 true ::
              (multipartUpload d.UploadURL N
                (optsIn.getD defaultUploadOptions)
                env.mpStatus sched).requests)) := by
  constructor
  · intro hN
    rw [UploadFile_tus_branch acct p optsIn env sched N hp hof hN]
    constructor
    · intro vid v hres hg
      rw [uploadTusStage_ok_ok acct N (optsIn.getD defaultUploadOptions)
        env sched vid v hres hg]
      exact ⟨rfl, rfl⟩
    · intro e hres
      rw [uploadTusStage_err acct N (optsIn.getD defaultUploadOptions)
        env sched e hres]
      exact ⟨rfl, isMatch_wrapped _ e, rfl⟩
  · intro hN
    rw [UploadFile_mp_branch acct p optsIn env sched N hp hof hN]
    constructor
    · intro d v hd hm hg
      rw [uploadMpStage_ok_ok N (optsIn.getD defaultUploadOptions)
        env sched d v hd hm hg]
    · intro d e hd hm
      rw [uploadMpStage_mp_err N (optsIn.getD defaultUploadOptions)
        env sched d e hd hm]
      exact ⟨rfl, isMatch_wrapped _ e, rfl⟩

/-- Witness for the amended C6 at a concrete input: a failing TUS session
open has its error wrapped and no retry issued. -/
theorem C6_witness :
    (("f" : String) ≠ "" ∧ tusThreshold ≤ tusThreshold) ∧
    (UploadFile "acct" "f" none
        ⟨fun _ => .ok tusThreshold, .ok ⟨"u", "uid"⟩, 200,
          ⟨500, "", fun _ => 204⟩, fun s => .ok ⟨s, "n", "r"⟩⟩
        (fun _ => true)).result =
      .error (.wrapped "TUS upload failed" (.tusInitFailed 500)) :=
  ⟨⟨by decide, le_refl _⟩,
    (((C6_fetch_after_upload "acct" "f" none
      ⟨fun _ => .ok tusThreshold, .ok ⟨"u", "uid"⟩, 200,
        ⟨500, "", fun _ => 204⟩, fun s => .ok ⟨s, "n", "r"⟩⟩
      (fun _ => true) tusThreshold (by decide) rfl).1 (le_refl _)).2
      (.tusInitFailed 500) rfl).1⟩

/-- C7 counterexample: the claim says a zero-length file is rejected with
`InvalidInput` before any request; in the code there is no size check: a
zero-length file runs the whole multipart path (direct-upload creation,
multipart POST, video fetch) and returns the fetched video. -/
theorem C7_counterexample :
    ((fun _ : String => (Except.ok 0 : Except UploadError Nat)) "f" =
      .ok 0) ∧
    (UploadFile "acct" "f" none
        ⟨fun _ => .ok 0, .ok ⟨"u", "uid"⟩, 200,
          ⟨201, "a/b", fun _ => 204⟩, fun s => .ok ⟨s, "n", "r"⟩⟩
        (fun _ => true)).result = .ok ⟨"uid", "n", "r"⟩ ∧
    (UploadFile "acct" "f" none
        ⟨fun _ => .ok 0, .ok ⟨"u", "uid"⟩, 200,
          ⟨201, "a/b", fun _ => 204⟩, fun s => .ok ⟨s, "n", "r"⟩⟩
        (fun _ => true)).requests =
      [Request.createDirectUpload 21600 true,
        Request.multipartPost "u" 0, Request.getVideo "uid"] := by
  rw [UploadFile_mp_branch "acct" "f" none
      ⟨fun _ => .ok 0, .ok ⟨"u", "uid"⟩, 200, ⟨201, "a/b", fun _ => 204⟩,
        fun s => .ok ⟨s, "n", "r"⟩⟩ (fun _ => true) 0 (by decide) rfl
      (by decide)]
  rw [show (none : Option UploadOptions).getD defaultUploadOptions =
    defaultUploadOptions from rfl]
  rw [uploadMpStage_ok_ok 0 defaultUploadOptions
      ⟨fun _ => .ok 0, .ok ⟨"u", "uid"⟩, 200, ⟨201, "a/b", fun _ => 204⟩,
        fun s => .ok ⟨s, "n", "r"⟩⟩ (fun _ => true) ⟨"u", "uid"⟩
      ⟨"uid", "n", "r"⟩ rfl rfl rfl]
  exact ⟨rfl, rfl, rfl⟩

/-- C7 (amended): `UploadFile` returns the distinct `InvalidInput` error
and issues no request when the file path is empty; a zero-length file is
NOT rejected: it runs the single-shot multipart path exactly like any
other small file. -/
theorem C7_invalid_input (acct : String) (optsIn : Option UploadOptions)
    (env : UploadEnv) (sched : Nat → Bool) :
    (UploadFile acct "" optsIn env sched).result =
        .error (.invalidInput "file path cannot be empty") ∧
      (UploadFile acct "" optsIn env sched).requests = [] ∧
      (∀ p, p ≠ "" → env.openFile p = .ok 0 →
        UploadFile acct p optsIn env sched =
          uploadMpStage 0 (optsIn.getD defaultUploadOptions) env sched) := by
  refine ⟨?_, ?_, ?_⟩
  · rw [UploadFile_empty_path]
  · rw [UploadFile_empty_path]
  · intro p hp hof
    exact UploadFile_mp_branch acct p optsIn env sched 0 hp hof (by decide)

/-- Witness for the amended C7 at a concrete input. -/
theorem C7_witness :
    (UploadFile "acct" ""
        (some ⟨"n", [], true⟩)
        ⟨fun _ => .ok 0, .ok ⟨"u", "uid"⟩, 200,
          ⟨201, "a/b", fun _ => 204⟩, fun s => .ok ⟨s, "n", "r"⟩⟩
        (fun _ => true)).result =
      .error (.invalidInput "file path cannot be empty") :=
  (C7_invalid_input "acct" (some ⟨"n", [], true⟩)
    ⟨fun _ => .ok 0, .ok ⟨"u", "uid"⟩, 200,
      ⟨201, "a/b", fun _ => 204⟩, fun s => .ok ⟨s, "n", "r"⟩⟩
    (fun _ => true)).1

theorem tusUploadDirect_sched (t : String) (N : Nat) (opts : UploadOptions)
    (env : TusEnv) (sched₁ sched₂ : Nat → Bool) :
    (tusUploadDirect t N opts env sched₁).requests =
        (tusUploadDirect t N opts env sched₂).requests ∧
      (tusUploadDirect t N opts env sched₁).sends =
        (tusUploadDirect t N opts env sched₂).sends ∧
      (tusUploadDirect t N opts env sched₁).result =
        (tusUploadDirect t N opts env sched₂).result ∧
      (tusUploadDirect t N opts env sched₁).delivered =
        keepScheduled sched₁ 0 (tusUploadDirect t N opts env sched₁).sends := by
  by_cases h201 : env.createStatus = 201
  · by_cases hloc : env.location = ""
    · rw [tusUploadDirect_no_location t N opts env sched₁ h201 hloc,
        tusUploadDirect_no_location t N opts env sched₂ h201 hloc]
      exact ⟨rfl, rfl, rfl, rfl⟩
    · rw [tusUploadDirect_opened t N opts env sched₁ h201 hloc,
        tusUploadDirect_opened t N opts env sched₂ h201 hloc]
      have h := tusChunkLoop_sched_irrelevant env.location N env.chunkStatus
        sched₁ sched₂ N 0 0
      refine ⟨by rw [h.1], h.2.1, ?_, ?_⟩
      · show Except.map _ _ = Except.map _ _
        rw [congrArg Prod.snd h.2.2]
      · exact tusChunkLoop_delivered env.location N env.chunkStatus
          sched₁ N 0 0
  · rw [tusUploadDirect_bad_status t N opts env sched₁ h201,
      tusUploadDirect_bad_status t N opts env sched₂ h201]
    exact ⟨rfl, rfl, rfl, rfl⟩

theorem multipartUpload_sched (url : String) (N : Nat)
    (opts : UploadOptions) (status : Nat) (sched₁ sched₂ : Nat → Bool) :
    (multipartUpload url N opts status sched₁).requests =
        (multipartUpload url N opts status sched₂).requests ∧
      (multipartUpload url N opts status sched₁).sends =
        (multipartUpload url N opts status sched₂).sends ∧
      (multipartUpload url N opts status sched₁).result =
        (multipartUpload url N opts status sched₂).result ∧
      (multipartUpload url N opts status sched₁).delivered =
        keepScheduled sched₁ 0
          (multipartUpload url N opts status sched₁).sends := by
  have hs₁ := multipartUpload_sends url N opts status sched₁
  have hs₂ := multipartUpload_sends url N opts status sched₂
  refine ⟨by rw [multipartUpload_reqs, multipartUpload_reqs], ?_, ?_, ?_⟩
  · rw [hs₁.1, hs₂.1, mpWriteLoop_sched_irrelevant N sched₁ sched₂ N 0 0]
  · by_cases hst : status = 200 ∨ status = 201
    · rw [multipartUpload_ok url N opts status sched₁ hst,
        multipartUpload_ok url N opts status sched₂ hst]
    · rw [multipartUpload_fail url N opts status sched₁ hst,
        multipartUpload_fail url N opts status sched₂ hst]
  · rw [hs₁.1, hs₁.2, mpWriteLoop_delivered N sched₁ N 0 0]

theorem uploadTusStage_sched (acct : String) (N : Nat)
    (opts : UploadOptions) (env : UploadEnv) (sched₁ sched₂ : Nat → Bool) :
    (uploadTusStage acct N opts env sched₁).requests =
        (uploadTusStage acct N opts env sched₂).requests ∧
      (uploadTusStage acct N opts env sched₁).sends =
        (uploadTusStage acct N opts env sched₂).sends ∧
      (uploadTusStage acct N opts env sched₁).result =
        (uploadTusStage acct N opts env sched₂).result ∧
      (uploadTusStage acct N opts env sched₁).delivered =
        keepScheduled sched₁ 0 (uploadTusStage acct N opts env sched₁).sends := by
  have ht := tusUploadDirect_sched (tusURLFor acct) N opts env.tus
    sched₁ sched₂
  cases hres : (tusUploadDirect (tusURLFor acct) N opts
      env.tus sched₁).result with
  | error e =>
      have hres₂ : (tusUploadDirect (tusURLFor acct) N opts
          env.tus sched₂).result = .error e := by
        rw [← ht.2.2.1]; exact hres
      rw [uploadTusStage_err acct N opts env sched₁ e hres,
        uploadTusStage_err acct N opts env sched₂ e hres₂]
      exact ⟨ht.1, ht.2.1, rfl, ht.2.2.2⟩
  | ok vid =>
      have hres₂ : (tusUploadDirect (tusURLFor acct) N opts
          env.tus sched₂).result = .ok vid := by
        rw [← ht.2.2.1]; exact hres
      cases hg : (getVideoCall vid env.videoLookup).2 with
      | error e =>
          rw [uploadTusStage_ok_err acct N opts env sched₁ vid e hres hg,
            uploadTusStage_ok_err acct N opts env sched₂ vid e hres₂ hg]
          exact ⟨by rw [ht.1], ht.2.1, rfl, ht.2.2.2⟩
      | ok v =>
          rw [uploadTusStage_ok_ok acct N opts env sched₁ vid v hres hg,
            uploadTusStage_ok_ok acct N opts env sched₂ vid v hres₂ hg]
          exact ⟨by rw [ht.1], ht.2.1, rfl, ht.2.2.2⟩

theorem uploadMpStage_sched (N : Nat) (opts : UploadOptions)
    (env : UploadEnv) (sched₁ sched₂ : Nat → Bool) :
    (uploadMpStage N opts env sched₁).requests =
        (uploadMpStage N opts env sched₂).requests ∧
      (uploadMpStage N opts env sched₁).sends =
        (uploadMpStage N opts env sched₂).sends ∧
      (uploadMpStage N opts env sched₁).result =
        (uploadMpStage N opts env sched₂).result ∧
      (uploadMpStage N opts env sched₁).delivered =
        keepScheduled sched₁ 0 (uploadMpStage N opts env sched₁).sends := by
  cases hd : env.directResp with
  | error e =>
      rw [uploadMpStage_dir_err N opts env sched₁ e hd,
        uploadMpStage_dir_err N opts env sched₂ e hd]
      exact ⟨rfl, rfl, rfl, rfl⟩
  | ok d =>
      have hm := multipartUpload_sched d.UploadURL N opts env.mpStatus
        sched₁ sched₂
      cases hres : (multipartUpload d.UploadURL N opts
          env.mpStatus sched₁).result with
      | error e =>
          have hres₂ : (multipartUpload d.UploadURL N opts
              env.mpStatus sched₂).result = .error e := by
            rw [← hm.2.2.1]; exact hres
          rw [uploadMpStage_mp_err N opts env sched₁ d e hd hres,
            uploadMpStage_mp_err N opts env sched₂ d e hd hres₂]
          exact ⟨by rw [hm.1], hm.2.1, rfl, hm.2.2.2⟩
      | ok u =>
          cases u
          have hres₂ : (multipartUpload d.UploadURL N opts
              env.mpStatus sched₂).result = .ok () := by
            rw [← hm.2.2.1]; exact hres
          cases hg : (getVideoCall d.UID env.videoLookup).2 with
          | error e =>
              rw [uploadMpStage_ok_err N opts env sched₁ d e hd hres hg,
                uploadMpStage_ok_err N opts env sched₂ d e hd hres₂ hg]
              exact ⟨by rw [hm.1], hm.2.1, rfl, hm.2.2.2⟩
          | ok v =>
              rw [uploadMpStage_ok_ok N opts env sched₁ d v hd hres hg,
                uploadMpStage_ok_ok N opts env sched₂ d v hd hres₂ hg]
              exact ⟨by rw [hm.1], hm.2.1, rfl, hm.2.2.2⟩

/-- C8: progress emission never gates transfer behaviour. The send of each
update is non-blocking: the delivered updates are exactly the generated
ones whose send the consumer was ready for (`keepScheduled`), dropped
otherwise; and two runs of the same upload that differ only in which
progress sends are dropped issue the same requests, generate the same
updates, and return the same result. -/
theorem C8_progress_noninterference (acct p : String)
    (optsIn : Option UploadOptions) (env : UploadEnv)
    (sched₁ sched₂ : Nat → Bool) :
    (UploadFile acct p optsIn env sched₁).requests =
        (UploadFile acct p optsIn env sched₂).requests ∧
      (UploadFile acct p optsIn env sched₁).sends =
        (UploadFile acct p optsIn env sched₂).sends ∧
      (UploadFile acct p optsIn env sched₁).result =
        (UploadFile acct p optsIn env sched₂).result ∧
      (UploadFile acct p optsIn env sched₁).delivered =
        keepScheduled sched₁ 0 (UploadFile acct p optsIn env sched₁).sends := by
  by_cases hp : p = ""
  · subst hp
    rw [UploadFile_empty_path, UploadFile_empty_path]
    exact ⟨rfl, rfl, rfl, rfl⟩
  · cases hof : env.openFile p with
    | error e =>
        rw [UploadFile_open_fail acct p optsIn env sched₁ e hp hof,
          UploadFile_open_fail acct p optsIn env sched₂ e hp hof]
        exact ⟨rfl, rfl, rfl, rfl⟩
    | ok N =>
        by_cases hN : tusThreshold ≤ N
        · rw [UploadFile_tus_branch acct p optsIn env sched₁ N hp hof hN,
            UploadFile_tus_branch acct p optsIn env sched₂ N hp hof hN]
          exact uploadTusStage_sched acct N (optsIn.getD defaultUploadOptions)
            env sched₁ sched₂
        · rw [UploadFile_mp_branch acct p optsIn env sched₁ N hp hof
            (by omega), UploadFile_mp_branch acct p optsIn env sched₂ N hp
            hof (by omega)]
          exact uploadMpStage_sched N (optsIn.getD defaultUploadOptions)
            env sched₁ sched₂

theorem tusOpenSession_opts (t : String) (N : Nat)
    (opts₁ opts₂ : UploadOptions) (env : TusEnv)
    (h : uploadMetadataOf opts₁ = uploadMetadataOf opts₂) :
    tusOpenSession t N opts₁ env = tusOpenSession t N opts₂ env := by
  unfold tusOpenSession
  rw [h]

theorem tusUploadDirect_opts (t : String) (N : Nat)
    (opts₁ opts₂ : UploadOptions) (env : TusEnv) (sched : Nat → Bool)
    (h : uploadMetadataOf opts₁ = uploadMetadataOf opts₂) :
    tusUploadDirect t N opts₁ env sched =
      tusUploadDirect t N opts₂ env sched := by
  unfold tusUploadDirect
  rw [tusOpenSession_opts t N opts₁ opts₂ env h]

theorem uploadTusStage_opts (acct : String) (N : Nat)
    (opts₁ opts₂ : UploadOptions) (env : UploadEnv) (sched : Nat → Bool)
    (h : uploadMetadataOf opts₁ = uploadMetadataOf opts₂) :
    uploadTusStage acct N opts₁ env sched =
      uploadTusStage acct N opts₂ env sched := by
  unfold uploadTusStage
  rw [tusUploadDirect_opts (tusURLFor acct) N opts₁ opts₂ env.tus sched h]

theorem uploadMpStage_opts (N : Nat) (opts₁ opts₂ : UploadOptions)
    (env : UploadEnv) (sched : Nat → Bool) :
    uploadMpStage N opts₁ env sched = uploadMpStage N opts₂ env sched := rfl

/-- C9 counterexample: the claim says the UploadOptions contents are
copied into the outgoing requests of the executed path, but on the
single-shot multipart path no option content reaches any request: two
uploads whose options differ in every field (name, metadata, signed-URL
flag) issue identical requests, and the direct-upload request carries
`requireSignedURLs = true` even though the options say `false`. -/
theorem C9_counterexample :
    (⟨"myvideo", [("k", "v")], false⟩ : UploadOptions) ≠ ⟨"", [], true⟩ ∧
    (UploadFile "acct" "f" (some ⟨"myvideo", [("k", "v")], false⟩)
        ⟨fun _ => .ok 5, .ok ⟨"u", "uid"⟩, 200,
          ⟨201, "a/b", fun _ => 204⟩, fun s => .ok ⟨s, "n", "r"⟩⟩
        (fun _ => true)).requests =
      (UploadFile "acct" "f" (some ⟨"", [], true⟩)
        ⟨fun _ => .ok 5, .ok ⟨"u", "uid"⟩, 200,
          ⟨201, "a/b", fun _ => 204⟩, fun s => .ok ⟨s, "n", "r"⟩⟩
        (fun _ => true)).requests ∧
    (UploadFile "acct" "f" (some ⟨"myvideo", [("k", "v")], false⟩)
        ⟨fun _ => .ok 5, .ok ⟨"u", "uid"⟩, 200,
          ⟨201, "a/b", fun _ => 204⟩, fun s => .ok ⟨s, "n", "r"⟩⟩
        (fun _ => true)).requests =
      [Request.createDirectUpload 21600 true,
        Request.multipartPost "u" 5, Request.getVideo "uid"] := by
  refine ⟨by decide, ?_, ?_⟩
  · rw [UploadFile_mp_branch "acct" "f" (some ⟨"myvideo", [("k", "v")], false⟩)
        ⟨fun _ => .ok 5, .ok ⟨"u", "uid"⟩, 200, ⟨201, "a/b", fun _ => 204⟩,
          fun s => .ok ⟨s, "n", "r"⟩⟩ (fun _ => true) 5 (by decide) rfl
        (by decide),
      UploadFile_mp_branch "acct" "f" (some ⟨"", [], true⟩)
        ⟨fun _ => .ok 5, .ok ⟨"u", "uid"⟩, 200, ⟨201, "a/b", fun _ => 204⟩,
          fun s => .ok ⟨s, "n", "r"⟩⟩ (fun _ => true) 5 (by decide) rfl
        (by decide)]
    rw [uploadMpStage_opts 5 ((some (⟨"myvideo", [("k", "v")], false⟩ :
      UploadOptions)).getD defaultUploadOptions)
      ((some (⟨"", [], true⟩ : UploadOptions)).getD defaultUploadOptions)]
  · rw [UploadFile_mp_branch "acct" "f" (some ⟨"myvideo", [("k", "v")], false⟩)
        ⟨fun _ => .ok 5, .ok ⟨"u", "uid"⟩, 200, ⟨201, "a/b", fun _ => 204⟩,
          fun s => .ok ⟨s, "n", "r"⟩⟩ (fun _ => true) 5 (by decide) rfl
        (by decide),
      uploadMpStage_ok_ok 5 ((some (⟨"myvideo", [("k", "v")], false⟩ :
          UploadOptions)).getD defaultUploadOptions)
        ⟨fun _ => .ok 5, .ok ⟨"u", "uid"⟩, 200, ⟨201, "a/b", fun _ => 204⟩,
          fun s => .ok ⟨s, "n", "r"⟩⟩ (fun _ => true) ⟨"u", "uid"⟩
        ⟨"uid", "n", "r"⟩ rfl rfl rfl]
    rfl

/-- C9 (amended): the engine never mutates the options value; the only
option content copied into an outgoing request is the display name — when
non-empty it is carried, base64-encoded, in the TUS session-open request's
Upload-Metadata header — while the TUS path ignores the metadata map and
signed-URL flag (same requests for any values of those fields), and the
single-shot multipart path ignores the options entirely, hardcoding
`requireSignedURLs = true` in its direct-upload request. -/
theorem C9_options_flow (acct p : String) (opts : UploadOptions)
    (env : UploadEnv) (sched : Nat → Bool) (N : Nat)
    (hp : p ≠ "") (hof : env.openFile p = .ok N) :
    (tusThreshold ≤ N →
      (UploadFile acct p (some opts) env sched).requests.head? =
          some (Request.tusCreate (tusURLFor acct) N
            (uploadMetadataOf opts)) ∧
        (opts.Name ≠ "" →
          uploadMetadataOf opts = "name " ++ base64Encode opts.Name) ∧
        (∀ meta' flag',
          (UploadFile acct p
            (some ⟨opts.Name, meta', flag'⟩) env sched).requests =
          (UploadFile acct p (some opts) env sched).requests)) ∧
    (N < tusThreshold →
      (∀ opts' : UploadOptions,
        (UploadFile acct p (some opts) env sched).requests =
          (UploadFile acct p (some opts') env sched).requests) ∧
      (UploadFile acct p (some opts) env sched).requests.head? =
        some (Request.createDirectUpload 21600 true)) := by
  constructor
  · intro hN
    rw [UploadFile_tus_branch acct p (some opts) env sched N hp hof hN]
    refine ⟨uploadTusStage_req_head acct N opts env sched, ?_, ?_⟩
    · intro hname
      unfold uploadMetadataOf
      rw [if_pos hname]
    · intro meta' flag'
      rw [UploadFile_tus_branch acct p (some ⟨opts.Name, meta', flag'⟩)
        env sched N hp hof hN]
      simp only [Option.getD_some]
      rw [uploadTusStage_opts acct N (⟨opts.Name, meta', flag'⟩ :
        UploadOptions) opts env sched rfl]
  · intro hN
    constructor
    · intro opts'
      rw [UploadFile_mp_branch acct p (some opts) env sched N hp hof hN,
        UploadFile_mp_branch acct p (some opts') env sched N hp hof hN]
      rw [uploadMpStage_opts N ((some opts).getD defaultUploadOptions)
        ((some opts').getD defaultUploadOptions)]
    · rw [UploadFile_mp_branch acct p (some opts) env sched N hp hof hN]
      exact uploadMpStage_req_head N ((some opts).getD defaultUploadOptions)
        env sched

/-- Witness for the amended C9 at a concrete input. -/
theorem C9_witness :
    (("f" : String) ≠ "" ∧ (5 : Nat) < tusThreshold) ∧
    (UploadFile "acct" "f" (some ⟨"myvideo", [("k", "v")], false⟩)
        ⟨fun _ => .ok 5, .ok ⟨"u", "uid"⟩, 200,
          ⟨201, "a/b", fun _ => 204⟩, fun s => .ok ⟨s, "n", "r"⟩⟩
        (fun _ => true)).requests.head? =
      some (Request.createDirectUpload 21600 true) :=
  ⟨⟨by decide, by decide⟩,
    ((C9_options_flow "acct" "f" ⟨"myvideo", [("k", "v")], false⟩
      ⟨fun _ => .ok 5, .ok ⟨"u", "uid"⟩, 200,
        ⟨201, "a/b", fun _ => 204⟩, fun s => .ok ⟨s, "n", "r"⟩⟩
      (fun _ => true) 5 (by decide) rfl).2 (by decide)).2⟩

/-- C10: passing nil options never makes `UploadFile` fail on that
account: nil options are replaced by the zero `UploadOptions` value
(`opts = &UploadOptions\x7b\x7d` in the source), so the whole outcome —
requests, generated and delivered progress updates, and result — is
identical to a call with empty options. -/
theorem C10_nil_options (acct p : String) (env : UploadEnv)
    (sched : Nat → Bool) :
    UploadFile acct p none env sched =
      UploadFile acct p (some defaultUploadOptions) env sched := rfl

end CFStream
